import Mathlib

/-!
Verification of the UxPlay AirPlay control/HLS protocol engine.

Shallow embedding of the relevant parts of the sources:
  src/lib/pairing.c, src/lib/http_handlers.h, src/lib/airplay_video.c,
  src/lib/media_data_store/MediaDataStore.cpp.

Bytes are modelled as Nat (with explicit masking where overflow matters),
strings as List Char or String, fallible code as Option.
Cryptographic primitives (SHA-512, AES block keystream, Ed25519) are
out-of-scope collaborators and enter as abstract function parameters;
MD5 (needed by the HTTP-Digest check) is implemented in full.
-/

namespace UxPlay

/-! ### Section 1: AES-CTR stream model and the pair-verify signature exchange
    (src/lib/pairing.c, pairing_session_get_signature / pairing_session_finish)

    AES-CTR is a stream cipher: the cipher context holds a keystream
    (determined by key and iv; the AES block computation itself is an
    out-of-scope primitive, so the keystream is an abstract function of the
    derived key and iv) and a current stream position.  Each encrypt call
    XORs the input with the next input-length keystream bytes and advances
    the position, exactly as the stateful aes_ctr_encrypt of crypto.c does. -/

/-- An AES-128-CTR cipher context: keystream function plus current offset. -/
structure AesCtrCtx where
  ks : Nat → Nat
  pos : Nat

/-- aes_ctr_init: fresh context at stream offset 0. -/
def aes_ctr_init (ks : Nat → Nat) : AesCtrCtx := ⟨ks, 0⟩

/-- aes_ctr_encrypt: XOR the input with the keystream at the current offset,
    advancing the offset by the input length. -/
def aes_ctr_encrypt (ctx : AesCtrCtx) (input : List Nat) : List Nat × AesCtrCtx :=
  (input.mapIdx (fun i b => Nat.xor b (ctx.ks (ctx.pos + i))),
   ⟨ctx.ks, ctx.pos + input.length⟩)

/-- XOR a message with a keystream starting at a given stream offset:
    the pure description of one CTR encryption at that offset. -/
def ctr_xor (ks : Nat → Nat) (off : Nat) (msg : List Nat) : List Nat :=
  msg.mapIdx (fun i b => Nat.xor b (ks (off + i)))

/-- Modelled from the spec: PAIRING_SIG_SIZE from pairing.h (not under src/)
    is the byte size of an Ed25519 signature, 64. -/
def PAIRING_SIG_SIZE : Nat := 64

/-- Modelled from the spec: X25519_KEY_SIZE from crypto.h (not under src/), 32. -/
def X25519_KEY_SIZE : Nat := 32

/-- The string constant SALT_KEY = "Pair-Verify-AES-Key" of pairing.c, as bytes. -/
def SALT_KEY : List Nat := ("Pair-Verify-AES-Key".toList).map Char.toNat

/-- The string constant SALT_IV = "Pair-Verify-AES-IV" of pairing.c, as bytes. -/
def SALT_IV : List Nat := ("Pair-Verify-AES-IV".toList).map Char.toNat

/-- The out-of-scope cryptographic collaborators of pairing.c, as abstract
    functions: SHA-512, the AES-CTR keystream determined by (key, iv), and
    Ed25519 sign/verify. -/
structure PairingCrypto where
  sha512 : List Nat → List Nat
  ctrKeystream : List Nat → List Nat → Nat → Nat
  ed25519_sign : List Nat → List Nat → List Nat
  ed25519_verify : List Nat → List Nat → List Nat → Bool

/-- A pairing session in STATUS_HANDSHAKE: both X25519 public keys, the
    derived shared secret, and both Ed25519 identities (pairing.c,
    struct pairing_session_s). -/
structure PairingSessionHS where
  ecdh_ours : List Nat
  ecdh_theirs : List Nat
  ecdh_secret : List Nat
  ed_ours : List Nat
  ed_theirs : List Nat

/-- derive_key_internal of pairing.c: SHA512(salt ++ ecdh_secret) truncated
    to the key length (16 here, always called with AES_128_BLOCK_SIZE). -/
def derive_key_internal (sha512 : List Nat → List Nat) (secret salt : List Nat) : List Nat :=
  (sha512 (salt ++ secret)).take 16

/-- pairing_session_get_signature of pairing.c (status = HANDSHAKE path):
    sign ecdh_ours ++ ecdh_theirs, then encrypt the 64-byte signature with a
    fresh AES-CTR context whose key and iv are derived from the shared
    secret.  Returns the outbound encrypted signature. -/
def pairing_session_get_signature (pc : PairingCrypto) (s : PairingSessionHS) : List Nat :=
  let sig_msg := s.ecdh_ours ++ s.ecdh_theirs
  let signature := pc.ed25519_sign sig_msg s.ed_ours
  let key := derive_key_internal pc.sha512 s.ecdh_secret SALT_KEY
  let iv := derive_key_internal pc.sha512 s.ecdh_secret SALT_IV
  let ctx := aes_ctr_init (pc.ctrKeystream key iv)
  (aes_ctr_encrypt ctx signature).1

/-- pairing_session_finish of pairing.c (status = HANDSHAKE path): re-derive
    the same key and iv, re-create the CTR context, run one "fake" encryption
    round over the uninitialized 64-byte sig_buffer (whose content, modelled
    by the garbage argument, is discarded), then decrypt the inbound
    signature with the stream thus advanced, and Ed25519-verify it over
    ecdh_theirs ++ ecdh_ours.  Returns (verification result, decrypted
    signature bytes). -/
def pairing_session_finish (pc : PairingCrypto) (s : PairingSessionHS)
    (signature : List Nat) (garbage : List Nat) : Bool × List Nat :=
  let key := derive_key_internal pc.sha512 s.ecdh_secret SALT_KEY
  let iv := derive_key_internal pc.sha512 s.ecdh_secret SALT_IV
  let ctx := aes_ctr_init (pc.ctrKeystream key iv)
  let fake := aes_ctr_encrypt ctx garbage
  let dec := aes_ctr_encrypt fake.2 signature
  let sig_buffer := dec.1
  let sig_msg := s.ecdh_theirs ++ s.ecdh_ours
  (pc.ed25519_verify sig_buffer sig_msg s.ed_theirs, sig_buffer)

theorem aes_ctr_encrypt_fst (ctx : AesCtrCtx) (input : List Nat) :
    (aes_ctr_encrypt ctx input).1 = ctr_xor ctx.ks ctx.pos input := rfl

/-- Claim C1 (counterexample): with keystream ks i = i, zero inbound
    ciphertext and zero garbage, pairing_session_finish decrypts the first
    inbound byte with keystream byte 64 (giving 64), not with keystream
    byte 16 as the claimed stream offset 16 would require (which would
    give 16).  So the inbound decrypt does not start at stream offset 16. -/
theorem C1_counterexample :
    (pairing_session_finish
        { sha512 := fun _ => List.replicate 64 0,
          ctrKeystream := fun _ _ i => i,
          ed25519_sign := fun _ _ => List.replicate 64 0,
          ed25519_verify := fun _ _ _ => true }
        { ecdh_ours := List.replicate 32 0, ecdh_theirs := List.replicate 32 0,
          ecdh_secret := List.replicate 32 0,
          ed_ours := List.replicate 32 0, ed_theirs := List.replicate 32 0 }
        (List.replicate 64 0) (List.replicate 64 0)).2.head? = some 64 ∧
    (ctr_xor (fun i => i) 16 (List.replicate 64 0)).head? = some 16 ∧
    (64 : Nat) ≠ 16 := by
  refine ⟨?_, ?_, by decide⟩ <;> rfl

/-- Claim C1 (amended): in pair-verify finish, for a session in Handshake
    status, pairing_session_finish decrypts the inbound encrypted signature
    with the same AES-CTR keystream (key = SHA512(SALT_KEY ++ secret) first
    16 bytes, iv = SHA512(SALT_IV ++ secret) first 16 bytes) continued from
    the outbound encryption of pairing_session_get_signature: the "fake"
    round consumes PAIRING_SIG_SIZE = 64 keystream bytes, exactly the bytes
    consumed by the outbound message, so the inbound decrypt starts at
    stream offset 64 (not 16). -/
theorem C1_ctr_stream_continued (pc : PairingCrypto) (s : PairingSessionHS)
    (ct garbage : List Nat) (hg : garbage.length = PAIRING_SIG_SIZE) :
    pairing_session_get_signature pc s =
      ctr_xor
        (pc.ctrKeystream (derive_key_internal pc.sha512 s.ecdh_secret SALT_KEY)
          (derive_key_internal pc.sha512 s.ecdh_secret SALT_IV)) 0
        (pc.ed25519_sign (s.ecdh_ours ++ s.ecdh_theirs) s.ed_ours) ∧
    (pairing_session_finish pc s ct garbage).2 =
      ctr_xor
        (pc.ctrKeystream (derive_key_internal pc.sha512 s.ecdh_secret SALT_KEY)
          (derive_key_internal pc.sha512 s.ecdh_secret SALT_IV)) PAIRING_SIG_SIZE ct := by
  constructor
  · rfl
  · simp only [pairing_session_finish, aes_ctr_encrypt, aes_ctr_init, hg]
    rfl

/-- Witness for C1_ctr_stream_continued at a concrete input. -/
theorem C1_ctr_stream_continued_witness :
    (List.replicate 64 0).length = PAIRING_SIG_SIZE ∧
    ((pairing_session_finish
        { sha512 := fun _ => List.replicate 64 0,
          ctrKeystream := fun _ _ i => i,
          ed25519_sign := fun _ _ => List.replicate 64 0,
          ed25519_verify := fun _ _ _ => true }
        { ecdh_ours := List.replicate 32 0, ecdh_theirs := List.replicate 32 0,
          ecdh_secret := List.replicate 32 0,
          ed_ours := List.replicate 32 0, ed_theirs := List.replicate 32 0 }
        (List.replicate 64 1) (List.replicate 64 0)).2 =
      ctr_xor
        (({ sha512 := fun _ => List.replicate 64 0,
            ctrKeystream := fun _ _ i => i,
            ed25519_sign := fun _ _ => List.replicate 64 0,
            ed25519_verify := fun _ _ _ => true } : PairingCrypto).ctrKeystream
          (derive_key_internal (fun _ => List.replicate 64 0) (List.replicate 32 0) SALT_KEY)
          (derive_key_internal (fun _ => List.replicate 64 0) (List.replicate 32 0) SALT_IV))
        PAIRING_SIG_SIZE (List.replicate 64 1)) := by
  refine ⟨by decide, ?_⟩
  exact (C1_ctr_stream_continued
    { sha512 := fun _ => List.replicate 64 0,
      ctrKeystream := fun _ _ i => i,
      ed25519_sign := fun _ _ => List.replicate 64 0,
      ed25519_verify := fun _ _ _ => true }
    { ecdh_ours := List.replicate 32 0, ecdh_theirs := List.replicate 32 0,
      ecdh_secret := List.replicate 32 0,
      ed_ours := List.replicate 32 0, ed_theirs := List.replicate 32 0 }
    (List.replicate 64 1) (List.replicate 64 0) (by decide)).2

/-! ### Section 2: MD5 and RFC 2617 HTTP-Digest verification
    (src/lib/pairing.c, get_token / pairing_digest_verify; the MD5
    primitive get_md5 lives in crypto.c outside src/ and is implemented
    here in full from its standard definition). -/

/-- 2 to the 32nd, the modulus of MD5 word arithmetic. -/
def M32 : Nat := 4294967296

/-- 32-bit left rotation. -/
def leftrot32 (x n : Nat) : Nat :=
  ((x <<< n) % M32) ||| (x >>> (32 - n))

/-- The 64 MD5 per-round shift amounts. -/
def md5_s : List Nat :=
  [7, 12, 17, 22, 7, 12, 17, 22, 7, 12, 17, 22, 7, 12, 17, 22,
   5, 9, 14, 20, 5, 9, 14, 20, 5, 9, 14, 20, 5, 9, 14, 20,
   4, 11, 16, 23, 4, 11, 16, 23, 4, 11, 16, 23, 4, 11, 16, 23,
   6, 10, 15, 21, 6, 10, 15, 21, 6, 10, 15, 21, 6, 10, 15, 21]

/-- The 64 MD5 sine-derived additive constants. -/
def md5_k : List Nat :=
  [0xd76aa478, 0xe8c7b756, 0x242070db, 0xc1bdceee,
   0xf57c0faf, 0x4787c62a, 0xa8304613, 0xfd469501,
   0x698098d8, 0x8b44f7af, 0xffff5bb1, 0x895cd7be,
   0x6b901122, 0xfd987193, 0xa679438e, 0x49b40821,
   0xf61e2562, 0xc040b340, 0x265e5a51, 0xe9b6c7aa,
   0xd62f105d, 0x02441453, 0xd8a1e681, 0xe7d3fbc8,
   0x21e1cde6, 0xc33707d6, 0xf4d50d87, 0x455a14ed,
   0xa9e3e905, 0xfcefa3f8, 0x676f02d9, 0x8d2a4c8a,
   0xfffa3942, 0x8771f681, 0x6d9d6122, 0xfde5380c,
   0xa4beea44, 0x4bdecfa9, 0xf6bb4b60, 0xbebfbc70,
   0x289b7ec6, 0xeaa127fa, 0xd4ef3085, 0x04881d05,
   0xd9d4d039, 0xe6db99e5, 0x1fa27cf8, 0xc4ac5665,
   0xf4292244, 0x432aff97, 0xab9423a7, 0xfc93a039,
   0x655b59c3, 0x8f0ccc92, 0xffeff47d, 0x85845dd1,
   0x6fa87e4f, 0xfe2ce6e0, 0xa3014314, 0x4e0811a1,
   0xf7537e82, 0xbd3af235, 0x2ad7d2bb, 0xeb86d391]

/-- One of the 64 MD5 round steps (complement written as subtraction from
    the all-ones 32-bit word). -/
def md5_step (m : List Nat) (st : Nat × Nat × Nat × Nat) (i : Nat) : Nat × Nat × Nat × Nat :=
  let (a, b, c, d) := st
  let f :=
    if i < 16 then (b &&& c) ||| ((M32 - 1 - b) &&& d)
    else if i < 32 then (d &&& b) ||| ((M32 - 1 - d) &&& c)
    else if i < 48 then Nat.xor (Nat.xor b c) d
    else Nat.xor c (b ||| (M32 - 1 - d))
  let g :=
    if i < 16 then i
    else if i < 32 then (5 * i + 1) % 16
    else if i < 48 then (3 * i + 5) % 16
    else (7 * i) % 16
  let tmp := (f + a + (md5_k.getD i 0) + m.getD g 0) % M32
  let bNew := (b + leftrot32 tmp (md5_s.getD i 0)) % M32
  (d, bNew, b, c)

/-- Little-endian 32-bit words from a list of 64 bytes. -/
def md5_words (block : List Nat) : List Nat :=
  (List.range 16).map (fun j =>
    block.getD (4 * j) 0 + 256 * block.getD (4 * j + 1) 0 +
    65536 * block.getD (4 * j + 2) 0 + 16777216 * block.getD (4 * j + 3) 0)

/-- Process one 64-byte MD5 block. -/
def md5_block (st : Nat × Nat × Nat × Nat) (block : List Nat) : Nat × Nat × Nat × Nat :=
  let m := md5_words block
  let (a, b, c, d) := (List.range 64).foldl (md5_step m) st
  let (a0, b0, c0, d0) := st
  ((a0 + a) % M32, (b0 + b) % M32, (c0 + c) % M32, (d0 + d) % M32)

/-- Split a list into chunks of 64 (fuel-structured so that it reduces). -/
def chunksAux : Nat → List Nat → List (List Nat)
  | 0, _ => []
  | _, [] => []
  | fuel + 1, l => l.take 64 :: chunksAux fuel (l.drop 64)

/-- Split a list into chunks of 64. -/
def chunks64 (l : List Nat) : List (List Nat) :=
  chunksAux l.length l

/-- MD5 padding: append 0x80, zeros up to 56 mod 64, then the 8-byte
    little-endian bit length. -/
def md5_pad (msg : List Nat) : List Nat :=
  let lenBits := 8 * msg.length
  let padLen := (55 + 64 - msg.length % 64) % 64
  msg ++ [0x80] ++ List.replicate padLen 0 ++
    (List.range 8).map (fun j => (lenBits >>> (8 * j)) % 256)

/-- MD5 digest of a byte list: 16 bytes. -/
def md5_bytes (msg : List Nat) : List Nat :=
  let init : Nat × Nat × Nat × Nat := (0x67452301, 0xefcdab89, 0x98badcfe, 0x10325476)
  let (a, b, c, d) := (chunks64 (md5_pad msg)).foldl md5_block init
  ((List.range 4).map (fun j => (a >>> (8 * j)) % 256)) ++
  ((List.range 4).map (fun j => (b >>> (8 * j)) % 256)) ++
  ((List.range 4).map (fun j => (c >>> (8 * j)) % 256)) ++
  ((List.range 4).map (fun j => (d >>> (8 * j)) % 256))

/-- Lowercase hex digit. -/
def hexDigit (n : Nat) : Char :=
  if n < 10 then Char.ofNat (48 + n) else Char.ofNat (87 + n)

/-- Lowercase hex string (as char list) of a byte list. -/
def bytesToHex (l : List Nat) : List Char :=
  l.flatMap (fun b => [hexDigit (b / 16), hexDigit (b % 16)])

/-- get_md5 of crypto.c: MD5 of a C string, as a lowercase hex string. -/
def get_md5 (s : List Char) : List Char :=
  bytesToHex (md5_bytes (s.map Char.toNat))

/-- strstr: the first suffix of hay that begins with needle, or none. -/
def strstrL (hay needle : List Char) : Option (List Char) :=
  match hay with
  | [] => if needle.isEmpty then some [] else none
  | _ :: t => if needle.isPrefixOf hay then some hay else strstrL t needle

/-- The characters strictly before the first occurrence of c; none if c is
    absent (models the token between start_char and end_char cut out by the
    nul byte get_token writes). -/
def takeUntilChar : List Char → Char → Option (List Char)
  | [], _ => none
  | x :: t, c => if x = c then some [] else (takeUntilChar t c).map (x :: ·)

/-- The suffix strictly after the first occurrence of c; none if c is
    absent (models strchr followed by the post-increment of the cursor). -/
def dropPastChar : List Char → Char → Option (List Char)
  | [], _ => none
  | x :: t, c => if x = c then some t else dropPastChar t c

/-- get_token of pairing.c: locate token_name in the cursor, skip to the
    next start_char, take the token up to the matching end_char; on success
    return the token and the advanced cursor, on any failure return none
    and leave the cursor where it was. -/
def get_token (cursor token_name : List Char) (startc endc : Char) :
    Option (List Char × List Char) := do
  let p1 ← strstrL cursor token_name
  let p2 := p1.drop token_name.length
  let p3 ← dropPastChar p2 startc
  let tok ← takeUntilChar p3 endc
  let rest ← dropPastChar p3 endc
  return (tok, rest)

/-- The separator ":" used when concatenating the digest inputs. -/
def colon : List Char := [':']

/-- pairing_digest_verify of pairing.c: extract username, realm, nonce, uri,
    optionally qop/nc/cnonce, and response from the Authorization header;
    compute H1 = MD5(user:realm:pw), H2 = MD5(method:uri) and
    MD5(H1:nonce[:nc:cnonce:qop]:H2), and compare with the response token.
    The C code dereferences missing tokens, modelled as none. -/
def pairing_digest_verify (method authorization password : List Char) : Option Bool := do
  let (username, cur1) ← get_token authorization "username".toList '\"' '\"'
  let (realm, cur2) ← get_token cur1 "realm".toList '\"' '\"'
  let (nonce, cur3) ← get_token cur2 "nonce".toList '\"' '\"'
  let (uri, cur4) ← get_token cur3 "uri".toList '\"' '\"'
  let qopRes := get_token cur4 "qop".toList '=' ','
  let (qopPart, cur7) ←
    match qopRes with
    | some (qop, cur5) => do
        let (nc, cur6) ← get_token cur5 "nc".toList '=' ','
        let (cnonce, cur7) ← get_token cur6 "cnonce".toList '\"' '\"'
        pure (nc ++ colon ++ cnonce ++ colon ++ qop ++ colon, cur7)
    | none => pure (([] : List Char), cur4)
  let (response, _) ← get_token cur7 "response".toList '\"' '\"'
  let hash1 := get_md5 (username ++ colon ++ realm ++ colon ++ password)
  let hash2 := get_md5 (method ++ colon ++ uri)
  let result := get_md5 (hash1 ++ colon ++ nonce ++ colon ++ qopPart ++ hash2)
  return result == response

/-- The RFC 2617 section 3.5 Authorization header (the test vector embedded
    in pairing.c under test_digest). -/
def testAuthHeader : String :=
  "Digest username=\"Mufasa\",realm=\"testrealm@host.com\",nonce=\"dcd98b7102dd2f0e8b11d0f600bfb0c093\",uri=\"/dir/index.html\",qop=auth,nc=00000001,cnonce=\"0a4f113b\",response=\"6629fae49393a05397450978507c4ef1\",opaque=\"5ccc069c403ebaf9f0171e9517f40e41\""

set_option maxRecDepth 20000 in
/-- Claim C2: on the RFC 2617 section 3.5 test vector, the digest
    pairing_digest_verify computes as MD5(H1:nonce:nc:cnonce:qop:H2) with
    H1 = MD5(user:realm:pw) and H2 = MD5(method:uri) equals
    6629fae49393a05397450978507c4ef1, and pairing_digest_verify accepts an
    Authorization header carrying exactly that response value. -/
theorem C2_digest_test_vector :
    get_md5 ((get_md5 "Mufasa:testrealm@host.com:Circle Of Life".toList) ++ colon ++
        "dcd98b7102dd2f0e8b11d0f600bfb0c093".toList ++ colon ++
        "00000001".toList ++ colon ++ "0a4f113b".toList ++ colon ++ "auth".toList ++ colon ++
        (get_md5 "GET:/dir/index.html".toList)) =
      "6629fae49393a05397450978507c4ef1".toList ∧
    pairing_digest_verify "GET".toList testAuthHeader.toList "Circle Of Life".toList =
      some true := by
  constructor
  · decide
  · decide

/-! ### Section 3: the connection table and the POST /reverse handler
    (src/lib/http_handlers.h, http_handler_reverse).  The connection table
    keyed by opaque handles is modelled as a list of connection types
    indexed by position; httpd_set_connection_type and
    httpd_count_connection_type (httpd.c, outside src/) are the evident
    set and count operations the spec describes. -/

/-- The per-connection type of the connection table. -/
inductive ConnectionType
  | control
  | ptth
  | hls
deriving DecidableEq, Repr

/-- The modifications a handler makes to its http response: an optional
    http_response_init (status line replacement), added headers, and the
    disconnect flag. -/
structure HttpResponseMod where
  init : Option (Nat × String)
  headers : List (String × String)
  disconnect : Bool
deriving DecidableEq, Repr

/-- A handler that touches nothing: the response keeps the status line the
    dispatcher gave it. -/
def noResponseMod : HttpResponseMod := ⟨none, [], false⟩

/-- Modelled from the spec: the dispatcher (raop.c, not under src/)
    initializes every response as 200 OK before invoking a handler, so an
    untouched response goes out with status 200. -/
def respStatus (m : HttpResponseMod) : Nat := (m.init.getD (200, "OK")).1

/-- A status is an HTTP error status when it is at least 400. -/
def isErrorStatus (s : Nat) : Prop := 400 ≤ s

/-- httpd_count_connection_type: how many connections have the given type. -/
def count_connection_type (conns : List ConnectionType) (t : ConnectionType) : Nat :=
  conns.count t

/-- http_handler_reverse of http_handlers.h: set this connection's type to
    PTTH, count PTTH connections; if the count is exactly one, answer
    101 Switching Protocols with Connection: Upgrade and Upgrade: PTTH/1.0,
    otherwise only log the error, leaving the response untouched.
    Returns the updated connection table and the response modification. -/
def http_handler_reverse (conns : List ConnectionType) (i : Nat) :
    List ConnectionType × HttpResponseMod :=
  let conns2 := conns.set i ConnectionType.ptth
  let type_PTTH := count_connection_type conns2 ConnectionType.ptth
  if type_PTTH = 1 then
    (conns2, ⟨some (101, "Switching Protocols"),
              [("Connection", "Upgrade"), ("Upgrade", "PTTH/1.0")], false⟩)
  else
    (conns2, noResponseMod)

theorem two_le_count_set (l : List ConnectionType) (a : ConnectionType) (i j : Nat)
    (hne : i ≠ j) (hj : l.get? j = some a) (hi : i < l.length) :
    2 ≤ (l.set i a).count a := by
  induction l generalizing i j with
  | nil => simp at hj
  | cons x t ih =>
    cases i with
    | zero =>
      cases j with
      | zero => exact absurd rfl hne
      | succ j' =>
        simp only [List.get?_cons_succ] at hj
        have hmem : a ∈ t := List.get?_mem hj
        have : 1 ≤ t.count a := List.count_pos_iff.mpr hmem
        simp only [List.set_cons_zero, List.count_cons_self]
        omega
    | succ i' =>
      simp only [List.length_cons, Nat.succ_lt_succ_iff] at hi
      cases j with
      | zero =>
        have hxa : x = a := by simpa using hj
        have hget : (t.set i' a).get? i' = some a := List.get?_set_eq_of_lt a hi
        have h1 : 1 ≤ (t.set i' a).count a := List.count_pos_iff.mpr (List.get?_mem hget)
        rw [List.set_cons_succ, hxa, List.count_cons_self]
        omega
      | succ j' =>
        have := ih i' j' (fun h => hne (by simp [h])) (by simpa using hj) hi
        simp only [List.set_cons_succ, List.count_cons]
        omega

/-- Claim C3 (counterexample): a table already holding a PTTH connection at
    index 0; the POST /reverse handler run for connection 1 does not
    upgrade it (no 101, no Upgrade headers), but the response it produces
    does not indicate an error either: it is left untouched, so it goes out
    with the dispatcher's default status 200. -/
theorem C3_counterexample :
    (http_handler_reverse [ConnectionType.ptth, ConnectionType.control] 1).2 =
      noResponseMod ∧
    respStatus (http_handler_reverse [ConnectionType.ptth, ConnectionType.control] 1).2 =
      200 ∧
    ¬ isErrorStatus
      (respStatus (http_handler_reverse [ConnectionType.ptth, ConnectionType.control] 1).2) := by
  refine ⟨by decide, by decide, ?_⟩
  simp only [isErrorStatus]
  decide

/-- Claim C3 (amended): when a POST /reverse arrives on connection i while
    another connection of type PTTH already exists in the table, the handler
    does not upgrade the second connection: it answers no 101 Switching
    Protocols status and adds no Connection: Upgrade / Upgrade: PTTH/1.0
    headers.  However, the response does not indicate an error: the handler
    leaves it untouched (the failure is only logged), so it goes out with
    the dispatcher's default status 200. -/
theorem C3_second_reverse_not_upgraded (conns : List ConnectionType) (i j : Nat)
    (hi : i < conns.length) (hne : j ≠ i)
    (hj : conns.get? j = some ConnectionType.ptth) :
    (http_handler_reverse conns i).2 = noResponseMod ∧
    respStatus (http_handler_reverse conns i).2 = 200 := by
  have hcount : 2 ≤ count_connection_type (conns.set i ConnectionType.ptth)
      ConnectionType.ptth :=
    two_le_count_set conns ConnectionType.ptth i j (fun h => hne h.symm) hj hi
  have hne1 : count_connection_type (conns.set i ConnectionType.ptth)
      ConnectionType.ptth ≠ 1 := by omega
  constructor
  · simp only [http_handler_reverse, if_neg hne1]
  · simp only [http_handler_reverse, if_neg hne1]
    rfl

/-- Witness for C3_second_reverse_not_upgraded at a concrete table. -/
theorem C3_second_reverse_not_upgraded_witness :
    (1 < ([ConnectionType.ptth, ConnectionType.control] : List ConnectionType).length ∧
     (0 : Nat) ≠ 1 ∧
     ([ConnectionType.ptth, ConnectionType.control] : List ConnectionType).get? 0 =
       some ConnectionType.ptth) ∧
    ((http_handler_reverse [ConnectionType.ptth, ConnectionType.control] 1).2 =
       noResponseMod ∧
     respStatus (http_handler_reverse [ConnectionType.ptth, ConnectionType.control] 1).2 =
       200) :=
  ⟨⟨by decide, by decide, by decide⟩,
   C3_second_reverse_not_upgraded [ConnectionType.ptth, ConnectionType.control] 1 0
     (by decide) (by decide) (by decide)⟩

/-! ### Section 4: property lists, the renderer interface, and the
    GET /playback-info handler (src/lib/http_handlers.h,
    time_range_to_plist / create_playback_info_plist_xml /
    http_handler_playback_info).

    Times are modelled as rationals: the only operations the code performs
    on them are comparison against the exact sentinel -1.0 and one
    subtraction, both exact on the spec's values. -/

/-- A property-list value (the subset produced by the handlers). -/
inductive Plist
  | dict : List (String × Plist) → Plist
  | array : List Plist → Plist
  | real : Rat → Plist
  | uint : Nat → Plist
  | str : String → Plist
  | data : String → Plist

/-- plist_dict_get_item on a dict node. -/
def plistDictGet : Plist → String → Option Plist
  | Plist.dict entries, k => (entries.find? (fun e => e.1 == k)).map (fun e => e.2)
  | _, _ => none

/-- The renderer up-calls a handler can make (the on_video_* callbacks). -/
inductive RendererCall
  | reset (hard : Bool)
  | play (uri : String) (start : Rat)
deriving DecidableEq, Repr

/-- playback_info_t as filled in by on_video_acquire_playback_info. -/
structure playback_info_t where
  duration : Rat
  position : Rat
  rate : Rat
  ready_to_play : Nat
  playback_buffer_empty : Nat
  playback_buffer_full : Nat
  playback_likely_to_keep_up : Nat
deriving DecidableEq, Repr

/-- time_range_to_plist of http_handlers.h: one dict per (start, duration)
    range, the duration entry inserted before the start entry. -/
def time_range_to_plist (ranges : List (Rat × Rat)) : List Plist :=
  ranges.map (fun r => Plist.dict [("duration", Plist.real r.2), ("start", Plist.real r.1)])

/-- create_playback_info_plist_xml of http_handlers.h: the response dict in
    insertion order. -/
def create_playback_info_plist (pi : playback_info_t)
    (loaded seekable : List (Rat × Rat)) : Plist :=
  Plist.dict
    [("duration", Plist.real pi.duration),
     ("position", Plist.real pi.position),
     ("rate", Plist.real pi.rate),
     ("readyToPlay", Plist.uint pi.ready_to_play),
     ("playbackBufferEmpty", Plist.uint pi.playback_buffer_empty),
     ("playbackBufferFull", Plist.uint pi.playback_buffer_full),
     ("playbackLikelyToKeepUp", Plist.uint pi.playback_likely_to_keep_up),
     ("loadedTimeRanges", Plist.array (time_range_to_plist loaded)),
     ("seekableTimeRanges", Plist.array (time_range_to_plist seekable))]

/-- What a handler produced: its response modification, the renderer
    up-calls it made in order, and the response body (a plist), if any. -/
structure HandlerOutcome where
  resp : HttpResponseMod
  rendererCalls : List RendererCall
  body : Option Plist

/-- http_handler_playback_info of http_handlers.h: ask the renderer for the
    current playback info; duration = -1.0 means finished, so set the
    disconnect flag, call video_reset(cls, true) and write no body;
    position = -1.0 means not available, so return without writing a body;
    otherwise answer the playback-info plist with
    loadedTimeRanges = [(position, duration - position)] and
    seekableTimeRanges = [(0, position)]. -/
def http_handler_playback_info (pi : playback_info_t) : HandlerOutcome :=
  if pi.duration = -1 then
    ⟨⟨none, [], true⟩, [RendererCall.reset true], none⟩
  else if pi.position = -1 then
    ⟨noResponseMod, [], none⟩
  else
    let loaded := [(pi.position, pi.duration - pi.position)]
    let seekable := [((0 : Rat), pi.position)]
    ⟨⟨none, [("Content-Type", "text/x-apple-plist+xml")], false⟩, [],
     some (create_playback_info_plist pi loaded seekable)⟩

/-- Claim C6: for every GET /playback-info request, if the renderer reports
    duration = -1.0 the handler sets the disconnect flag on the response
    (Connection: close), calls renderer reset with hard = true and writes no
    body; if instead position = -1.0 it returns without writing a body (and
    without touching the response or the renderer); otherwise it answers the
    plist with loadedTimeRanges = [(start = position,
    duration = duration - position)] and seekableTimeRanges =
    [(start = 0, duration = position)]. -/
theorem C6_playback_info_sentinels (pi : playback_info_t) :
    (pi.duration = -1 →
      (http_handler_playback_info pi).resp.disconnect = true ∧
      (http_handler_playback_info pi).rendererCalls = [RendererCall.reset true] ∧
      (http_handler_playback_info pi).body = none) ∧
    (pi.duration ≠ -1 → pi.position = -1 →
      http_handler_playback_info pi = ⟨noResponseMod, [], none⟩) ∧
    (pi.duration ≠ -1 → pi.position ≠ -1 →
      (http_handler_playback_info pi).resp.disconnect = false ∧
      (http_handler_playback_info pi).rendererCalls = [] ∧
      ((http_handler_playback_info pi).body.bind
          (fun b => plistDictGet b "loadedTimeRanges")) =
        some (Plist.array [Plist.dict
          [("duration", Plist.real (pi.duration - pi.position)),
           ("start", Plist.real pi.position)]]) ∧
      ((http_handler_playback_info pi).body.bind
          (fun b => plistDictGet b "seekableTimeRanges")) =
        some (Plist.array [Plist.dict
          [("duration", Plist.real pi.position),
           ("start", Plist.real 0)]])) := by
  refine ⟨fun h1 => ?_, fun h1 h2 => ?_, fun h1 h2 => ?_⟩
  · simp [http_handler_playback_info, h1]
  · simp [http_handler_playback_info, h1, h2]
  · simp [http_handler_playback_info, h1, h2, plistDictGet,
      create_playback_info_plist, time_range_to_plist]

/-- Witness for C6_playback_info_sentinels: the three sentinel cases at
    concrete playback infos. -/
theorem C6_playback_info_sentinels_witness :
    ((http_handler_playback_info ⟨-1, 3, 1, 1, 0, 1, 1⟩).resp.disconnect = true ∧
     (http_handler_playback_info ⟨-1, 3, 1, 1, 0, 1, 1⟩).rendererCalls =
       [RendererCall.reset true] ∧
     (http_handler_playback_info ⟨-1, 3, 1, 1, 0, 1, 1⟩).body = none) ∧
    http_handler_playback_info ⟨60, -1, 1, 1, 0, 1, 1⟩ = ⟨noResponseMod, [], none⟩ ∧
    ((http_handler_playback_info ⟨60, 10, 1, 1, 0, 1, 1⟩).body.bind
        (fun b => plistDictGet b "loadedTimeRanges")) =
      some (Plist.array [Plist.dict
        [("duration", Plist.real ((60 : Rat) - 10)),
         ("start", Plist.real 10)]]) :=
  ⟨(C6_playback_info_sentinels ⟨-1, 3, 1, 1, 0, 1, 1⟩).1 rfl,
   (C6_playback_info_sentinels ⟨60, -1, 1, 1, 0, 1, 1⟩).2.1 (by norm_num) rfl,
   ((C6_playback_info_sentinels ⟨60, 10, 1, 1, 0, 1, 1⟩).2.2 (by norm_num)
     (by norm_num)).2.2.1⟩

/-! ### Section 5: the POST /action handler (src/lib/http_handlers.h,
    http_handler_action) and the playback session it drives.

    The airplay_video accessors used by the handler (get_apple_session_id,
    get_uri_prefix, get_uri_local_prefix, get_num_media_uri,
    get_media_uri_by_num, get_next_media_uri_id, set_next_media_uri_id,
    get_next_FCUP_RequestID, get_start_position_seconds, the playlist
    stores) live in the full airplay_video implementation, of which src/
    only holds a reduced file; the state they manage is modelled from the
    spec's PlaybackSession data model as explicit fields. -/

/-- The PlaybackSession state behind the airplay_video accessors.
    Modelled from the spec: apple_session_id and playback_uuid (36-char
    UUIDs), start position, sender uri prefix and local uri prefix
    "http://localhost:(port)", the rewritten master playlist, the media
    playlist map with (chunk count, duration) per entry, the FIFO of
    outstanding media uris with the next index, and the monotone
    FCUP_RequestID. -/
structure AirplayVideo where
  apple_session_id : String
  playback_uuid : String
  uri_pfx : String
  local_uri_pfx : String
  start_position_seconds : Rat
  master_playlist : Option String
  media_playlists : List (String × String × Nat × Rat)
  media_uris : List String
  next_media_uri_id : Nat
  fcup_request_id : Nat

/-- The observable side effects of the /action handler: FCUP requests sent
    on the reverse channel and the renderer play up-call. -/
inductive ActionEvent
  | fcupRequest (url : String) (sessionId : String) (requestId : Nat)
  | videoPlay (uri : String) (start : Rat)
deriving DecidableEq, Repr

/-- Whether an event is the renderer play up-call. -/
def ActionEvent.isPlay : ActionEvent → Bool
  | ActionEvent.videoPlay _ _ => true
  | _ => false

/-- The inbound POST /action request as the handler sees it: the
    X-Apple-Session-ID header, whether the headers announce an
    apple-binary-plist body, and the parsed body. -/
structure ActionRequest where
  session_id : Option String
  is_plist : Bool
  body : Option Plist

/-- The helpers of the full airplay_video implementation that are not under
    src/, as abstract parameters.  Modelled from the spec:
    select_master_playlist_language (language filtering of the master),
    create_media_uri_table (enumerate variant and rendition uris),
    adjust_master_playlist (rewrite sender uris to the local prefix) and
    analyze_media_playlist (chunk count and total duration). -/
structure ActionHelpers where
  selectLang : String → String
  parseUris : String → String → List String
  adjustMaster : String → String → String → String
  analyzeMedia : String → Nat × Rat

/-- strstr as a containment test on strings. -/
def containsSub (s pat : String) : Bool := (strstrL s.toList pat.toList).isSome

/-- What one /action invocation produced: the updated session, the response
    modification, the emitted events, and whether the process exited (the
    playlistInsert dump path calls exit(0)). -/
structure ActionResult where
  av : AirplayVideo
  resp : HttpResponseMod
  events : List ActionEvent
  exited : Bool

/-- The Bad Request outcome of the post_action_error label: a 400 response,
    the session untouched, nothing sent, no disconnect. -/
def action_error (av : AirplayVideo) : ActionResult :=
  ⟨av, ⟨some (400, "Bad Request"), [], false⟩, [], false⟩

/-- The tail of the unhandledURLResponse branch of http_handler_action:
    if the next media uri index is below the number of media uris, send one
    FCUP request for that uri (with the next FCUP_RequestID) and advance
    the index; otherwise call on_video_play on the local master playlist
    uri with the stored start position. -/
def action_uri_queue_step (av : AirplayVideo) : AirplayVideo × List ActionEvent :=
  let num_uri := av.media_uris.length
  let uri_num := av.next_media_uri_id
  if uri_num < num_uri then
    ({av with next_media_uri_id := uri_num + 1, fcup_request_id := av.fcup_request_id + 1},
     [ActionEvent.fcupRequest (av.media_uris.getD uri_num "") av.apple_session_id
        av.fcup_request_id])
  else
    (av, [ActionEvent.videoPlay (av.local_uri_pfx ++ "/master.m3u8")
            av.start_position_seconds])

/-- The master-playlist arm of the unhandledURLResponse branch: filter the
    master by language, enumerate the media uris, rewrite the master to the
    local prefix and store it, and reset the next media uri index to 0. -/
def action_store_master (h : ActionHelpers) (av : AirplayVideo) (playlist : String) :
    AirplayVideo :=
  let playlist2 := h.selectLang playlist
  let uri_list := h.parseUris av.uri_pfx playlist2
  let new_master := h.adjustMaster playlist2 av.uri_pfx av.local_uri_pfx
  { av with master_playlist := some new_master, media_uris := uri_list,
            next_media_uri_id := 0 }

/-- The media-playlist arm of the unhandledURLResponse branch: analyze the
    playlist, and store it under the uri it was requested for (index
    next_media_uri_id - 1) unless an entry with the identical
    (url, chunk count, duration) triple is already stored (duplicate
    suppression).  The C index is int; the handler only runs with
    next_media_uri_id at least 1 (a media reply follows an FCUP request
    that advanced it), matching Nat truncation. -/
def action_store_media (h : ActionHelpers) (av : AirplayVideo) (playlist : String) :
    AirplayVideo :=
  let cd := h.analyzeMedia playlist
  let uri_num := av.next_media_uri_id - 1
  let url := av.media_uris.getD uri_num ""
  if av.media_playlists.any (fun e => e.1 == url && e.2.2.1 == cd.1 && decide (e.2.2.2 = cd.2))
  then av
  else { av with media_playlists := av.media_playlists ++ [(url, playlist, cd.1, cd.2)] }

/-- http_handler_action of http_handlers.h: reject with 400 Bad Request if
    the X-Apple-Session-ID header is missing or differs from the session's
    apple_session_id, if the body is not a binary plist, or if the plist
    shape is wrong; dispatch on the type field: playlistRemove only logs,
    playlistInsert dumps the request and exits, unhandledURLResponse stores
    the carried playlist (master or media arm by whether the FCUP response
    url contains "/master.m3u8") and then either sends the next FCUP
    request or calls on_video_play (action_uri_queue_step). -/
def http_handler_action (h : ActionHelpers) (av : AirplayVideo) (req : ActionRequest) :
    ActionResult :=
  match req.session_id with
  | none => action_error av
  | some sid =>
    if sid ≠ av.apple_session_id then action_error av
    else if ¬ req.is_plist then action_error av
    else
      match req.body with
      | none => action_error av
      | some root =>
        match plistDictGet root "type" with
        | some (Plist.str ty) =>
          let params := plistDictGet root "params"
          let paramsIsDict := match params with
            | some (Plist.dict _) => true
            | _ => false
          if ty != "playlistInsert" && !paramsIsDict then action_error av
          else if ty = "playlistRemove" then
            ⟨av, noResponseMod, [], false⟩
          else if ty = "playlistInsert" then
            ⟨av, noResponseMod, [], true⟩
          else if ty = "unhandledURLResponse" then
            match params.bind (fun p => plistDictGet p "FCUP_Response_URL") with
            | some (Plist.str fcup_response_url) =>
              match params.bind (fun p => plistDictGet p "FCUP_Response_Data") with
              | some (Plist.data playlist) =>
                let av2 :=
                  if containsSub fcup_response_url "/master.m3u8" then
                    action_store_master h av playlist
                  else
                    action_store_media h av playlist
                let step := action_uri_queue_step av2
                ⟨step.1, noResponseMod, step.2, false⟩
              | _ => action_error av
            | _ => action_error av
          else
            ⟨av, noResponseMod, [], false⟩
        | _ => action_error av

/-- Claim C7: a POST /action whose X-Apple-Session-ID header is missing or
    differs from the session's apple_session_id is answered 400 Bad Request
    without processing the body: the session state is unchanged, nothing is
    sent, and the connection is not torn down (no disconnect on the
    response). -/
theorem C7_action_session_mismatch (h : ActionHelpers) (av : AirplayVideo)
    (req : ActionRequest)
    (hmis : req.session_id = none ∨ req.session_id ≠ some av.apple_session_id) :
    http_handler_action h av req = action_error av ∧
    (action_error av).av = av ∧
    (action_error av).resp.init = some (400, "Bad Request") ∧
    (action_error av).resp.disconnect = false ∧
    (action_error av).events = [] := by
  refine ⟨?_, rfl, rfl, rfl, rfl⟩
  match hreq : req.session_id with
  | none => simp [http_handler_action, hreq]
  | some sid =>
    have hne : sid ≠ av.apple_session_id := by
      rcases hmis with hnone | hnem
      · rw [hreq] at hnone
        cases hnone
      · rw [hreq] at hnem
        intro hcontra
        exact hnem (by rw [hcontra])
    simp [http_handler_action, hreq, hne]

/-- Witness for C7_action_session_mismatch at a concrete session/request. -/
theorem C7_action_session_mismatch_witness :
    ((some "other-session" : Option String) = none ∨
      (some "other-session" : Option String) ≠ some "the-session") ∧
    http_handler_action
        ⟨(fun s => s), (fun _ _ => []), (fun s _ _ => s), (fun _ => (0, 0))⟩
        ⟨"the-session", "u", "p", "l", 0, none, [], [], 0, 1⟩
        ⟨some "other-session", true, none⟩ =
      action_error ⟨"the-session", "u", "p", "l", 0, none, [], [], 0, 1⟩ :=
  ⟨Or.inr (by simp),
   (C7_action_session_mismatch
     ⟨(fun s => s), (fun _ _ => []), (fun s _ _ => s), (fun _ => (0, 0))⟩
     ⟨"the-session", "u", "p", "l", 0, none, [], [], 0, 1⟩
     ⟨some "other-session", true, none⟩ (Or.inr (by simp))).1⟩

/-- A well-formed unhandledURLResponse /action request: the session id
    header, the type field and the params dict with the FCUP response url
    and data, as the sender delivers them. -/
def mkUnhandledURLResponse (sid url dataStr : String) : ActionRequest :=
  ⟨some sid, true,
   some (Plist.dict
     [("type", Plist.str "unhandledURLResponse"),
      ("params", Plist.dict
        [("FCUP_Response_URL", Plist.str url),
         ("FCUP_Response_Data", Plist.data dataStr)])])⟩

/-- Run k successive media-playlist /action deliveries (url u, payload d)
    through http_handler_action, collecting the emitted events. -/
def runMediaActions (h : ActionHelpers) (u d : String) :
    Nat → AirplayVideo → AirplayVideo × List ActionEvent
  | 0, av => (av, [])
  | k + 1, av =>
    let r := http_handler_action h av (mkUnhandledURLResponse av.apple_session_id u d)
    let rest := runMediaActions h u d k r.av
    (rest.1, r.events ++ rest.2)

theorem handler_unhandled_eq (h : ActionHelpers) (av : AirplayVideo) (u d : String) :
    http_handler_action h av (mkUnhandledURLResponse av.apple_session_id u d) =
      ⟨(action_uri_queue_step (if containsSub u "/master.m3u8"
          then action_store_master h av d else action_store_media h av d)).1,
       noResponseMod,
       (action_uri_queue_step (if containsSub u "/master.m3u8"
          then action_store_master h av d else action_store_media h av d)).2,
       false⟩ := by
  simp [http_handler_action, mkUnhandledURLResponse, plistDictGet]

theorem action_store_media_fields (h : ActionHelpers) (av : AirplayVideo) (d : String) :
    (action_store_media h av d).media_uris = av.media_uris ∧
    (action_store_media h av d).next_media_uri_id = av.next_media_uri_id ∧
    (action_store_media h av d).local_uri_pfx = av.local_uri_pfx ∧
    (action_store_media h av d).start_position_seconds = av.start_position_seconds ∧
    (action_store_media h av d).apple_session_id = av.apple_session_id := by
  simp only [action_store_media]
  split <;> simp

theorem run_media_actions_play_last (h : ActionHelpers) (u d : String)
    (hu : containsSub u "/master.m3u8" = false) :
    ∀ (k : Nat) (av : AirplayVideo),
      av.next_media_uri_id ≤ av.media_uris.length →
      k = av.media_uris.length - av.next_media_uri_id + 1 →
      ∃ pre, (runMediaActions h u d k av).2 =
          pre ++ [ActionEvent.videoPlay (av.local_uri_pfx ++ "/master.m3u8")
                    av.start_position_seconds] ∧
        ∀ e ∈ pre, e.isPlay = false := by
  intro k
  induction k with
  | zero => intro av _ hk; omega
  | succ k ih =>
    intro av hle hk
    have hfields := action_store_media_fields h av d
    rw [runMediaActions, handler_unhandled_eq, hu]
    simp only [Bool.false_eq_true, if_false]
    by_cases hlt : av.next_media_uri_id < av.media_uris.length
    · have hlt2 : (action_store_media h av d).next_media_uri_id <
          (action_store_media h av d).media_uris.length := by
        rw [hfields.1, hfields.2.1]; exact hlt
      rw [action_uri_queue_step, if_pos hlt2]
      have hk' : k = av.media_uris.length - (av.next_media_uri_id + 1) + 1 := by omega
      obtain ⟨pre, hpre, hnoplay⟩ := ih
        { action_store_media h av d with
          next_media_uri_id := (action_store_media h av d).next_media_uri_id + 1,
          fcup_request_id := (action_store_media h av d).fcup_request_id + 1 }
        (by simp [hfields.1, hfields.2.1]; omega)
        (by simp [hfields.1, hfields.2.1]; omega)
      refine ⟨ActionEvent.fcupRequest ((action_store_media h av d).media_uris.getD
          (action_store_media h av d).next_media_uri_id "")
          (action_store_media h av d).apple_session_id
          (action_store_media h av d).fcup_request_id :: pre, ?_, ?_⟩
      · simp only [List.cons_append, List.append_assoc]
        rw [hpre]
        simp [hfields.2.2.1, hfields.2.2.2.1]
      · intro e he
        rcases List.mem_cons.mp he with rfl | hmem
        · rfl
        · exact hnoplay e hmem
    · have heq : av.next_media_uri_id = av.media_uris.length := by omega
      have hk0 : k = 0 := by omega
      have hnlt : ¬ (action_store_media h av d).next_media_uri_id <
          (action_store_media h av d).media_uris.length := by
        rw [hfields.1, hfields.2.1]; omega
      rw [action_uri_queue_step, if_neg hnlt]
      subst hk0
      refine ⟨[], ?_, by intro e he; cases he⟩
      simp [runMediaActions, hfields.2.2.1, hfields.2.2.2.1]

/-- Claim C5: the renderer play up-call is made if and only if the queue of
    outstanding media uris is exhausted.  Per invocation of the
    unhandledURLResponse tail: when the next uri index is below the number
    of media uris the handler issues exactly one further FCUP request and
    does not call play; when the queue is exhausted it calls on_video_play
    on "http://localhost:(port)/master.m3u8" with the stored start position.
    Over a whole playback session (one master /action delivery followed by
    one media /action delivery per enumerated uri), on_video_play is called
    exactly once, as the last emitted event, after every requested playlist
    has been processed. -/
theorem C5_play_iff_queue_exhausted :
    (∀ av : AirplayVideo,
      (av.next_media_uri_id < av.media_uris.length →
        (action_uri_queue_step av).2 =
          [ActionEvent.fcupRequest (av.media_uris.getD av.next_media_uri_id "")
             av.apple_session_id av.fcup_request_id] ∧
        ∀ e ∈ (action_uri_queue_step av).2, e.isPlay = false) ∧
      (av.media_uris.length ≤ av.next_media_uri_id →
        (action_uri_queue_step av).2 =
          [ActionEvent.videoPlay (av.local_uri_pfx ++ "/master.m3u8")
             av.start_position_seconds]) ∧
      ((∃ x s, ActionEvent.videoPlay x s ∈ (action_uri_queue_step av).2) ↔
        av.media_uris.length ≤ av.next_media_uri_id)) ∧
    (∀ (h : ActionHelpers) (av : AirplayVideo) (mu md u d : String),
      containsSub mu "/master.m3u8" = true →
      containsSub u "/master.m3u8" = false →
      ∃ pre,
        (http_handler_action h av (mkUnhandledURLResponse av.apple_session_id mu md)).events ++
          (runMediaActions h u d ((h.parseUris av.uri_pfx (h.selectLang md)).length)
            (http_handler_action h av
              (mkUnhandledURLResponse av.apple_session_id mu md)).av).2 =
          pre ++ [ActionEvent.videoPlay (av.local_uri_pfx ++ "/master.m3u8")
                    av.start_position_seconds] ∧
        ∀ e ∈ pre, e.isPlay = false) := by
  constructor
  · intro av
    refine ⟨fun hlt => ?_, fun hge => ?_, ?_⟩
    · rw [action_uri_queue_step, if_pos hlt]
      exact ⟨rfl, by intro e he; simp at he; subst he; rfl⟩
    · rw [action_uri_queue_step, if_neg (by omega)]
    · constructor
      · rintro ⟨x, s, hmem⟩
        by_cases hlt : av.next_media_uri_id < av.media_uris.length
        · rw [action_uri_queue_step, if_pos hlt] at hmem
          simp at hmem
        · omega
      · intro hge
        rw [action_uri_queue_step, if_neg (by omega)]
        exact ⟨av.local_uri_pfx ++ "/master.m3u8", av.start_position_seconds, by simp⟩
  · intro h av mu md u d hmu hu
    rw [handler_unhandled_eq, hmu]
    simp only [if_true]
    have hmfields : (action_store_master h av md).media_uris =
          h.parseUris av.uri_pfx (h.selectLang md) ∧
        (action_store_master h av md).next_media_uri_id = 0 ∧
        (action_store_master h av md).local_uri_pfx = av.local_uri_pfx ∧
        (action_store_master h av md).start_position_seconds =
          av.start_position_seconds ∧
        (action_store_master h av md).apple_session_id = av.apple_session_id := by
      unfold action_store_master; simp
    by_cases hm : (h.parseUris av.uri_pfx (h.selectLang md)).length = 0
    · have hnlt : ¬ (action_store_master h av md).next_media_uri_id <
          (action_store_master h av md).media_uris.length := by
        rw [hmfields.1, hmfields.2.1]; omega
      rw [action_uri_queue_step, if_neg hnlt]
      refine ⟨[], ?_, by intro e he; cases he⟩
      rw [hm]
      simp [runMediaActions, hmfields.2.2.1, hmfields.2.2.2.1]
    · have hlt : (action_store_master h av md).next_media_uri_id <
          (action_store_master h av md).media_uris.length := by
        rw [hmfields.1, hmfields.2.1]; omega
      rw [action_uri_queue_step, if_pos hlt]
      obtain ⟨pre, hpre, hnoplay⟩ := run_media_actions_play_last h u d hu
        ((h.parseUris av.uri_pfx (h.selectLang md)).length)
        { action_store_master h av md with
          next_media_uri_id := (action_store_master h av md).next_media_uri_id + 1,
          fcup_request_id := (action_store_master h av md).fcup_request_id + 1 }
        (by simp [hmfields.1, hmfields.2.1]; omega)
        (by simp [hmfields.1, hmfields.2.1]; omega)
      refine ⟨ActionEvent.fcupRequest
          ((action_store_master h av md).media_uris.getD
            (action_store_master h av md).next_media_uri_id "")
          (action_store_master h av md).apple_session_id
          (action_store_master h av md).fcup_request_id :: pre, ?_, ?_⟩
      · simp only [List.cons_append, List.append_assoc]
        rw [hpre]
        simp [hmfields.2.2.1, hmfields.2.2.2.1]
      · intro e he
        rcases List.mem_cons.mp he with rfl | hmem
        · rfl
        · exact hnoplay e hmem

/-- A concrete playback session for exercising the /action queue logic. -/
def c5WitnessAv : AirplayVideo :=
  ⟨"sid", "uu", "p", "http://localhost:7000", 5, none, [], ["m0", "m1"], 0, 1⟩

/-- Concrete action helpers: two enumerated media uris per master. -/
def c5WitnessHelpers : ActionHelpers :=
  ⟨fun s => s, fun _ _ => ["a", "b"], fun s _ _ => s, fun _ => (3, 10)⟩

/-- Witness for C5_play_iff_queue_exhausted at a concrete session. -/
theorem C5_play_iff_queue_exhausted_witness :
    (c5WitnessAv.next_media_uri_id < c5WitnessAv.media_uris.length ∧
     (action_uri_queue_step c5WitnessAv).2 =
       [ActionEvent.fcupRequest (c5WitnessAv.media_uris.getD c5WitnessAv.next_media_uri_id "")
          c5WitnessAv.apple_session_id c5WitnessAv.fcup_request_id] ∧
     ∀ e ∈ (action_uri_queue_step c5WitnessAv).2, e.isPlay = false) ∧
    (containsSub "x/master.m3u8" "/master.m3u8" = true ∧
     containsSub "m" "/master.m3u8" = false ∧
     ∃ pre, (http_handler_action c5WitnessHelpers c5WitnessAv
          (mkUnhandledURLResponse c5WitnessAv.apple_session_id "x/master.m3u8" "M")).events ++
        (runMediaActions c5WitnessHelpers "m" "D"
          ((c5WitnessHelpers.parseUris c5WitnessAv.uri_pfx
            (c5WitnessHelpers.selectLang "M")).length)
          (http_handler_action c5WitnessHelpers c5WitnessAv
            (mkUnhandledURLResponse c5WitnessAv.apple_session_id "x/master.m3u8" "M")).av).2 =
        pre ++ [ActionEvent.videoPlay (c5WitnessAv.local_uri_pfx ++ "/master.m3u8")
                  c5WitnessAv.start_position_seconds] ∧
       ∀ e ∈ pre, e.isPlay = false) :=
  ⟨⟨by decide, (C5_play_iff_queue_exhausted.1 c5WitnessAv).1 (by decide)⟩,
   by decide, by decide,
   C5_play_iff_queue_exhausted.2 c5WitnessHelpers c5WitnessAv "x/master.m3u8" "M" "m" "D"
     (by decide) (by decide)⟩

/-! ### Section 6: the playlist store map
    (src/lib/media_data_store/MediaDataStore.cpp, add_media_data /
    query_media_data).  The std::map member media_data_ is modelled as an
    association list with unique keys on which assignment overwrites the
    value in place, exactly the semantics of map::operator[] followed by
    assignment; query_media_data returns the stored string or the empty
    string when the key is absent. -/

/-- std::map assignment: overwrite the value at the key in place, or append
    a fresh entry. -/
def mapSet : List (String × String) → String → String → List (String × String)
  | [], k, v => [(k, v)]
  | (k0, v0) :: t, k, v =>
    if k0 = k then (k0, v) :: t else (k0, v0) :: mapSet t k v

/-- std::map::find. -/
def mapFind : List (String × String) → String → Option String
  | [], _ => none
  | (k0, v0) :: t, k => if k0 = k then some v0 else mapFind t k

/-- MediaDataStore::add_media_data: media_data_[uri] = data. -/
def add_media_data (store : List (String × String)) (uri data : String) :
    List (String × String) :=
  mapSet store uri data

/-- MediaDataStore::query_media_data: the stored playlist text, or the
    empty string when the path is absent. -/
def query_media_data (store : List (String × String)) (path : String) : String :=
  (mapFind store path).getD ""

/-- The keys of a store. -/
def storeKeys (store : List (String × String)) : List String :=
  store.map Prod.fst

theorem mapSet_overwrite (st : List (String × String)) (k v v' : String) :
    mapSet (mapSet st k v') k v = mapSet st k v := by
  induction st with
  | nil => simp [mapSet]
  | cons e t ih =>
    obtain ⟨k0, v0⟩ := e
    by_cases hk : k0 = k
    · simp [mapSet, hk]
    · simp [mapSet, hk, ih]

theorem countP_eq_zero_of_not_mem_keys (st : List (String × String)) (k : String)
    (hk : k ∉ storeKeys st) :
    st.countP (fun e => e.1 == k) = 0 := by
  induction st with
  | nil => simp
  | cons e t ih =>
    simp only [storeKeys, List.map_cons, List.mem_cons, not_or] at hk
    have h1 : (e.1 == k) = false := by
      simp only [beq_eq_false_iff_ne]
      exact fun h => hk.1 h.symm
    rw [List.countP_cons, h1]
    simpa using ih (by simpa [storeKeys] using hk.2)

theorem countP_mapSet (st : List (String × String)) (k v : String)
    (hnd : (storeKeys st).Nodup) :
    (mapSet st k v).countP (fun e => e.1 == k) = 1 := by
  induction st with
  | nil => simp [mapSet]
  | cons e t ih =>
    obtain ⟨k0, v0⟩ := e
    simp only [storeKeys, List.map_cons, List.nodup_cons] at hnd
    by_cases hk : k0 = k
    · subst hk
      have hset : mapSet ((k0, v0) :: t) k0 v = (k0, v) :: t := by simp [mapSet]
      rw [hset, List.countP_cons]
      have : t.countP (fun e => e.1 == k0) = 0 :=
        countP_eq_zero_of_not_mem_keys t k0 (by simpa [storeKeys] using hnd.1)
      simp [this]
    · simp only [mapSet, if_neg hk]
      rw [List.countP_cons]
      have h1 : ((k0, v0).1 == k) = false := by
        simp only [beq_eq_false_iff_ne]
        exact hk
      simp only [h1, Bool.false_eq_true, if_false, Nat.add_zero]
      exact ih (by simpa [storeKeys] using hnd.2)

theorem mapFind_mapSet_self (st : List (String × String)) (k v : String) :
    mapFind (mapSet st k v) k = some v := by
  induction st with
  | nil => simp [mapSet, mapFind]
  | cons e t ih =>
    obtain ⟨k0, v0⟩ := e
    by_cases hk : k0 = k
    · simp [mapSet, mapFind, hk]
    · simp [mapSet, mapFind, hk, ih]

/-- Claim C8: the playlist store is idempotent and exact: for any store with
    the std::map unique-key invariant, any path p and data d, adding (p, d)
    twice equals adding it once and leaves exactly one entry for p, and
    query_media_data p afterwards returns exactly the stored bytes d; the
    last value written for p wins. -/
theorem C8_store_idempotent_exact (st : List (String × String)) (p d d' : String)
    (hnd : (storeKeys st).Nodup) :
    add_media_data (add_media_data st p d) p d = add_media_data st p d ∧
    (add_media_data (add_media_data st p d) p d).countP (fun e => e.1 == p) = 1 ∧
    query_media_data (add_media_data (add_media_data st p d) p d) p = d ∧
    query_media_data (add_media_data (add_media_data st p d') p d) p = d := by
  refine ⟨mapSet_overwrite st p d d, ?_, ?_, ?_⟩
  · rw [add_media_data, add_media_data, mapSet_overwrite]
    exact countP_mapSet st p d hnd
  · rw [add_media_data, add_media_data, mapSet_overwrite]
    simp [query_media_data, mapFind_mapSet_self]
  · rw [add_media_data, add_media_data, mapSet_overwrite]
    simp [query_media_data, mapFind_mapSet_self]

/-- Witness for C8_store_idempotent_exact at a concrete store. -/
theorem C8_store_idempotent_exact_witness :
    (storeKeys [("/a.m3u8", "A")]).Nodup ∧
    (add_media_data (add_media_data [("/a.m3u8", "A")] "/master.m3u8" "M")
        "/master.m3u8" "M" =
      add_media_data [("/a.m3u8", "A")] "/master.m3u8" "M" ∧
    (add_media_data (add_media_data [("/a.m3u8", "A")] "/master.m3u8" "M")
        "/master.m3u8" "M").countP (fun e => e.1 == "/master.m3u8") = 1 ∧
    query_media_data (add_media_data (add_media_data [("/a.m3u8", "A")]
        "/master.m3u8" "M") "/master.m3u8" "M") "/master.m3u8" = "M" ∧
    query_media_data (add_media_data (add_media_data [("/a.m3u8", "A")]
        "/master.m3u8" "old") "/master.m3u8" "M") "/master.m3u8" = "M") :=
  ⟨by decide,
   C8_store_idempotent_exact [("/a.m3u8", "A")] "/master.m3u8" "M" "old" (by decide)⟩

/-! ### Section 7: the playback session registry driven by POST /play
    (src/lib/http_handlers.h, http_handler_play).  The registry is the
    fixed array raop->airplay_video of MAX_AIRPLAY_VIDEO slots; its length
    is the list length here.  Durations are set by the /action playlist
    stores between /play requests; each /play step therefore takes an
    adversarial duration assignment.  get_playlist_by_uuid, get_duration,
    airplay_video_init and airplay_video_destroy (raop.c and the full
    airplay_video implementation, not under src/) are modelled from the
    spec: find-by-uuid over live sessions, the stored total duration, a
    fresh session with empty store (duration 0), and slot clearing. -/

/-- A registry slot: playback uuid and the session's total media duration. -/
structure PlaySession where
  uuid : String
  duration : Rat

/-- The number of live sessions in the registry. -/
def countSome : List (Option PlaySession) → Nat
  | [] => 0
  | none :: t => countSome t
  | some _ :: t => countSome t + 1

/-- The index of the first free slot (the allocation scan of
    http_handler_play). -/
def firstFreeIdx : List (Option PlaySession) → Option Nat
  | [] => none
  | none :: _ => some 0
  | some _ :: t => (firstFreeIdx t).map (· + 1)

/-- The uuids of the live sessions. -/
def storedUuids : List (Option PlaySession) → List String
  | [] => []
  | none :: t => storedUuids t
  | some s :: t => s.uuid :: storedUuids t

/-- The purge loop of http_handler_play: destroy every session whose total
    duration is below MIN_STORED_AIRPLAY_VIDEO_DURATION_SECONDS. -/
def purgeShort (minDur : Rat) : List (Option PlaySession) → List (Option PlaySession)
  | [] => []
  | none :: t => none :: purgeShort minDur t
  | some s :: t =>
    (if s.duration < minDur then none else some s) :: purgeShort minDur t

/-- One POST /play on the registry (the registry-managing part of
    http_handler_play), for a request with the given playback uuid. upd is
    the duration each live session has accumulated by the time of this
    request. If the uuid is already live the session is reused and the
    registry unchanged; otherwise short sessions are purged, the new
    session is placed in the first free slot id (none: the code calls
    exit(1)), and if all slots are then occupied, slot (id + 1) mod N is
    destroyed. -/
def http_handler_play_registry (minDur : Rat) (upd : String → Rat)
    (st : List (Option PlaySession)) (uuid : String) :
    Option (List (Option PlaySession)) :=
  let st0 := st.map (Option.map (fun s => ⟨s.uuid, upd s.uuid⟩))
  if uuid ∈ storedUuids st0 then
    some st0
  else
    let purged := purgeShort minDur st0
    let cnt := countSome purged
    match firstFreeIdx purged with
    | none => none
    | some id =>
      let after := purged.set id (some ⟨uuid, 0⟩)
      if cnt + 1 = st.length then some (after.set ((id + 1) % st.length) none)
      else some after

/-- A sequence of /play requests, each with its uuid and the duration
    assignment in force when it arrives. -/
def runPlays (minDur : Rat) :
    List (Option PlaySession) → List (String × (String → Rat)) →
    Option (List (Option PlaySession))
  | st, [] => some st
  | st, (u, upd) :: rest =>
    (http_handler_play_registry minDur upd st u).bind (fun st2 => runPlays minDur st2 rest)

theorem length_purgeShort (minDur : Rat) (st : List (Option PlaySession)) :
    (purgeShort minDur st).length = st.length := by
  induction st with
  | nil => rfl
  | cons o t ih =>
    cases o with
    | none => simp [purgeShort, ih]
    | some s => simp [purgeShort, ih]

theorem countSome_purgeShort (minDur : Rat) (st : List (Option PlaySession)) :
    countSome (purgeShort minDur st) ≤ countSome st := by
  induction st with
  | nil => simp [purgeShort, countSome]
  | cons o t ih =>
    cases o with
    | none => simpa [purgeShort, countSome] using ih
    | some s =>
      by_cases hd : s.duration < minDur
      · simp only [purgeShort, if_pos hd, countSome]
        omega
      · simp only [purgeShort, if_neg hd, countSome]
        omega

theorem storedUuids_purgeShort (minDur : Rat) (st : List (Option PlaySession)) :
    ∀ w ∈ storedUuids (purgeShort minDur st), w ∈ storedUuids st := by
  induction st with
  | nil => simp [purgeShort]
  | cons o t ih =>
    cases o with
    | none =>
      simpa [purgeShort, storedUuids] using ih
    | some s =>
      intro w hw
      by_cases hd : s.duration < minDur
      · simp only [purgeShort, if_pos hd, storedUuids] at hw
        exact List.mem_cons_of_mem _ (ih w hw)
      · simp only [purgeShort, if_neg hd, storedUuids] at hw
        rcases List.mem_cons.mp hw with rfl | hmem
        · exact List.mem_cons_self _ _
        · exact List.mem_cons_of_mem _ (ih w hmem)

theorem countSome_le_length (st : List (Option PlaySession)) :
    countSome st ≤ st.length := by
  induction st with
  | nil => simp [countSome]
  | cons o t ih =>
    cases o with
    | none => simp [countSome]; omega
    | some s => simp [countSome]; omega

theorem firstFreeIdx_of_lt (st : List (Option PlaySession))
    (h : countSome st < st.length) :
    ∃ id, firstFreeIdx st = some id ∧ id < st.length ∧ st.get? id = some none := by
  induction st with
  | nil => simp at h
  | cons o t ih =>
    cases o with
    | none => exact ⟨0, rfl, by simp, rfl⟩
    | some s =>
      have ht : countSome t < t.length := by
        simp only [countSome, List.length_cons] at h
        omega
      obtain ⟨id, hid, hlt, hget⟩ := ih ht
      exact ⟨id + 1, by simp [firstFreeIdx, hid], by simp; omega, by simpa using hget⟩

theorem countSome_set_some (st : List (Option PlaySession)) (s : PlaySession) :
    ∀ id, st.get? id = some none →
      countSome (st.set id (some s)) = countSome st + 1 := by
  induction st with
  | nil => intro id hid; simp at hid
  | cons o t ih =>
    intro id hid
    cases id with
    | zero =>
      simp only [List.get?_cons_zero, Option.some_inj] at hid
      subst hid
      simp [countSome]
    | succ id' =>
      cases o with
      | none => simpa [countSome] using ih id' (by simpa using hid)
      | some s0 => simpa [countSome] using ih id' (by simpa using hid)

theorem countSome_set_none_of_full (st : List (Option PlaySession)) :
    ∀ id, id < st.length → countSome st = st.length →
      countSome (st.set id none) + 1 = st.length := by
  induction st with
  | nil => intro id hid; simp at hid
  | cons o t ih =>
    intro id hid hfull
    cases o with
    | none =>
      exfalso
      have := countSome_le_length t
      simp only [countSome, List.length_cons] at hfull
      omega
    | some s =>
      cases id with
      | zero => simpa [countSome] using hfull
      | succ id' =>
        simp only [List.length_cons, Nat.succ_lt_succ_iff] at hid
        simp only [countSome, List.length_cons] at hfull
        have := ih id' hid (by omega)
        simp only [List.set_cons_succ, countSome, List.length_cons]
        omega

theorem countSome_set_none_le (st : List (Option PlaySession)) :
    ∀ id, countSome (st.set id none) ≤ countSome st := by
  induction st with
  | nil => intro id; simp [countSome]
  | cons o t ih =>
    intro id
    cases id with
    | zero =>
      cases o with
      | none => exact Nat.le.refl
      | some s => exact Nat.le_succ _
    | succ id' =>
      cases o with
      | none => simpa [countSome] using ih id'
      | some s => simpa [countSome] using ih id'

theorem storedUuids_set_some (st : List (Option PlaySession)) (s : PlaySession) :
    ∀ id w, w ∈ storedUuids (st.set id (some s)) →
      w = s.uuid ∨ w ∈ storedUuids st := by
  induction st with
  | nil => intro id w hw; simp [storedUuids] at hw
  | cons o t ih =>
    intro id w hw
    cases id with
    | zero =>
      simp only [List.set_cons_zero, storedUuids] at hw
      rcases List.mem_cons.mp hw with rfl | hmem
      · exact Or.inl rfl
      · cases o with
        | none => exact Or.inr hmem
        | some s0 => exact Or.inr (List.mem_cons_of_mem _ hmem)
    | succ id' =>
      cases o with
      | none =>
        simp only [List.set_cons_succ, storedUuids] at hw
        exact (ih id' w hw).imp (fun h => h) (fun h => h)
      | some s0 =>
        simp only [List.set_cons_succ, storedUuids] at hw
        rcases List.mem_cons.mp hw with rfl | hmem
        · exact Or.inr (List.mem_cons_self _ _)
        · exact (ih id' w hmem).imp (fun h => h)
            (fun h => List.mem_cons_of_mem _ h)

theorem storedUuids_set_none (st : List (Option PlaySession)) :
    ∀ id w, w ∈ storedUuids (st.set id none) → w ∈ storedUuids st := by
  induction st with
  | nil => intro id w hw; simpa [storedUuids] using hw
  | cons o t ih =>
    intro id w hw
    cases id with
    | zero =>
      simp only [List.set_cons_zero, storedUuids] at hw
      cases o with
      | none => simpa [storedUuids] using hw
      | some s0 => simp [storedUuids]; exact Or.inr hw
    | succ id' =>
      cases o with
      | none =>
        simp only [List.set_cons_succ, storedUuids] at hw
        simpa [storedUuids] using ih id' w hw
      | some s0 =>
        simp only [List.set_cons_succ, storedUuids] at hw
        rcases List.mem_cons.mp hw with rfl | hmem
        · simp [storedUuids]
        · simp [storedUuids]; exact Or.inr (ih id' w hmem)

theorem uuid_mem_of_get (st : List (Option PlaySession)) (s : PlaySession) :
    ∀ id, st.get? id = some (some s) → s.uuid ∈ storedUuids st := by
  induction st with
  | nil => intro id hid; simp at hid
  | cons o t ih =>
    intro id hid
    cases id with
    | zero =>
      simp only [List.get?_cons_zero, Option.some_inj] at hid
      subst hid
      simp [storedUuids]
    | succ id' =>
      cases o with
      | none => simpa [storedUuids] using ih id' (by simpa using hid)
      | some s0 =>
        simp only [storedUuids]
        exact List.mem_cons_of_mem _ (ih id' (by simpa using hid))

theorem storedUuids_map_upd (upd : String → Rat) (st : List (Option PlaySession)) :
    storedUuids (st.map (Option.map (fun s => ⟨s.uuid, upd s.uuid⟩))) =
      storedUuids st := by
  induction st with
  | nil => rfl
  | cons o t ih =>
    cases o with
    | none => simpa [storedUuids] using ih
    | some s => simp [storedUuids, ih]

theorem countSome_map_upd (upd : String → Rat) (st : List (Option PlaySession)) :
    countSome (st.map (Option.map (fun s => ⟨s.uuid, upd s.uuid⟩))) = countSome st := by
  induction st with
  | nil => rfl
  | cons o t ih =>
    cases o with
    | none => simpa [countSome] using ih
    | some s => simp [countSome, ih]

theorem countSome_replicate_none (n : Nat) :
    countSome (List.replicate n (none : Option PlaySession)) = 0 := by
  induction n with
  | zero => rfl
  | succ n ih => simpa [List.replicate_succ, countSome] using ih

theorem storedUuids_replicate_none (n : Nat) :
    storedUuids (List.replicate n (none : Option PlaySession)) = [] := by
  induction n with
  | zero => rfl
  | succ n ih => simpa [List.replicate_succ, storedUuids] using ih

theorem play_registry_step (minDur : Rat) (upd : String → Rat)
    (st : List (Option PlaySession)) (u : String)
    (hN : 2 ≤ st.length) (hfree : countSome st < st.length)
    (hfresh : u ∉ storedUuids st) :
    ∃ st', http_handler_play_registry minDur upd st u = some st' ∧
      st'.length = st.length ∧
      countSome st' < st'.length ∧
      u ∈ storedUuids st' ∧
      ∀ w ∈ storedUuids st', w = u ∨ w ∈ storedUuids st := by
  have hmem0 : u ∉ storedUuids (st.map (Option.map (fun s => ⟨s.uuid, upd s.uuid⟩))) := by
    rw [storedUuids_map_upd]; exact hfresh
  have hlen0 : (st.map (Option.map (fun s => (⟨s.uuid, upd s.uuid⟩ : PlaySession)))).length =
      st.length := List.length_map _ _
  have hcnt0 : countSome (st.map (Option.map (fun s => ⟨s.uuid, upd s.uuid⟩))) =
      countSome st := countSome_map_upd upd st
  set st0 := st.map (Option.map (fun s => (⟨s.uuid, upd s.uuid⟩ : PlaySession))) with hst0
  set purged := purgeShort minDur st0 with hpurged
  have hplen : purged.length = st.length := by
    rw [hpurged, length_purgeShort, hlen0]
  have hpcnt : countSome purged < purged.length := by
    calc countSome purged ≤ countSome st0 := countSome_purgeShort minDur st0
    _ = countSome st := hcnt0
    _ < st.length := hfree
    _ = purged.length := hplen.symm
  obtain ⟨id, hfid, hidlt, hget⟩ := firstFreeIdx_of_lt purged hpcnt
  have hidlt' : id < st.length := by rw [← hplen]; exact hidlt
  set after := purged.set id (some ⟨u, 0⟩) with hafter
  have halen : after.length = st.length := by
    rw [hafter, List.length_set, hplen]
  have hacnt : countSome after = countSome purged + 1 :=
    countSome_set_some purged ⟨u, 0⟩ id hget
  have haget : after.get? id = some (some ⟨u, 0⟩) := by
    rw [hafter]
    exact List.get?_set_eq_of_lt _ hidlt
  have humem : u ∈ storedUuids after := uuid_mem_of_get after ⟨u, 0⟩ id haget
  have hasub : ∀ w ∈ storedUuids after, w = u ∨ w ∈ storedUuids st := by
    intro w hw
    rcases storedUuids_set_some purged ⟨u, 0⟩ id w hw with h | h
    · exact Or.inl h
    · refine Or.inr ?_
      have := storedUuids_purgeShort minDur st0 w h
      rwa [storedUuids_map_upd] at this
  have hrun : http_handler_play_registry minDur upd st u =
      (if countSome purged + 1 = st.length
       then some (after.set ((id + 1) % st.length) none) else some after) := by
    rw [http_handler_play_registry]
    simp only [← hst0, if_neg hmem0, ← hpurged, hfid, ← hafter]
  by_cases hfull : countSome purged + 1 = st.length
  · refine ⟨after.set ((id + 1) % st.length) none, ?_, ?_, ?_, ?_, ?_⟩
    · rw [hrun, if_pos hfull]
    · rw [List.length_set, halen]
    · have hmod : (id + 1) % st.length < st.length := Nat.mod_lt _ (by omega)
      have hfull' : countSome after = after.length := by
        rw [hacnt, halen]; exact hfull
      have := countSome_set_none_of_full after ((id + 1) % st.length)
        (by rw [halen]; exact hmod) hfull'
      rw [List.length_set]
      omega
    · have hne : (id + 1) % st.length ≠ id := by
        rcases Nat.lt_or_ge (id + 1) st.length with hlt | hge
        · rw [Nat.mod_eq_of_lt hlt]; omega
        · have hid1 : id + 1 = st.length := by omega
          rw [hid1, Nat.mod_self]
          omega
      have hget2 : (after.set ((id + 1) % st.length) none).get? id =
          some (some ⟨u, 0⟩) := by
        rw [List.get?_set_ne none after hne, haget]
      exact uuid_mem_of_get _ ⟨u, 0⟩ id hget2
    · intro w hw
      exact hasub w (storedUuids_set_none after _ w hw)
  · refine ⟨after, ?_, halen, ?_, humem, hasub⟩
    · rw [hrun, if_neg hfull]
    · rw [halen, hacnt]
      have := countSome_le_length purged
      rw [hplen] at this
      omega

theorem runPlays_spec (minDur : Rat) :
    ∀ (steps : List (String × (String → Rat))) (st : List (Option PlaySession)),
    2 ≤ st.length → countSome st < st.length →
    (∀ p ∈ steps, p.1 ∉ storedUuids st) →
    (steps.map Prod.fst).Nodup →
    ∃ st', runPlays minDur st steps = some st' ∧
      st'.length = st.length ∧ countSome st' < st'.length ∧
      (∀ w ∈ storedUuids st', w ∈ storedUuids st ∨ w ∈ steps.map Prod.fst) ∧
      (∀ lastp ∈ steps.getLast?, lastp.1 ∈ storedUuids st') := by
  intro steps
  induction steps with
  | nil =>
    intro st hN hfree _ _
    exact ⟨st, rfl, rfl, hfree, fun w hw => Or.inl hw, by simp⟩
  | cons p rest ih =>
    intro st hN hfree hfresh hnd
    obtain ⟨u, upd⟩ := p
    obtain ⟨st1, hrun1, hlen1, hfree1, humem1, hsub1⟩ :=
      play_registry_step minDur upd st u hN hfree
        (hfresh (u, upd) (List.mem_cons_self _ _))
    simp only [List.map_cons, List.nodup_cons] at hnd
    cases rest with
    | nil =>
      refine ⟨st1, ?_, hlen1, by rwa [hlen1] at hfree1 ⊢, ?_, ?_⟩
      · simp [runPlays, hrun1]
      · intro w hw
        rcases hsub1 w hw with h | h
        · exact Or.inr (by simp [h])
        · exact Or.inl h
      · intro lastp hlast
        simp only [List.getLast?_singleton, Option.mem_def, Option.some_inj] at hlast
        subst hlast
        exact humem1
    | cons q qs =>
      have hfresh1 : ∀ r ∈ q :: qs, r.1 ∉ storedUuids st1 := by
        intro r hr hmem
        rcases hsub1 r.1 hmem with h | h
        · exact hnd.1 (h ▸ List.mem_map_of_mem Prod.fst hr)
        · exact hfresh r (List.mem_cons_of_mem _ hr) h
      obtain ⟨st', hrun', hlen', hfree', hsub', hlast'⟩ :=
        ih st1 (by rwa [hlen1]) hfree1 hfresh1 hnd.2
      refine ⟨st', ?_, by rw [hlen', hlen1], hfree', ?_, ?_⟩
      · show (http_handler_play_registry minDur upd st u).bind
            (fun st2 => runPlays minDur st2 (q :: qs)) = some st'
        rw [hrun1]
        exact hrun'
      · intro w hw
        rcases hsub' w hw with h | h
        · rcases hsub1 w h with h2 | h2
          · exact Or.inr (by simp [h2])
          · exact Or.inl h2
        · exact Or.inr (by simp only [List.map_cons]; exact List.mem_cons_of_mem _ h)
      · intro lastp hlast
        refine hlast' lastp ?_
        rwa [List.getLast?_cons_cons] at hlast

/-- Claim C4: every /play invocation preserves the registry bound.  Starting
    from the empty registry of N = MAX_PLAYBACK_SESSIONS slots (N at least
    2), for any sequence of more than N /play requests with pairwise
    distinct uuids and arbitrary intervening duration updates: sessions
    below MIN_STORED_SECONDS are purged first, the slot (current + 1) mod N
    is destroyed whenever all slots become occupied, no request hits the
    no-free-slot abort, the registry ends with at most
    MAX_PLAYBACK_SESSIONS live sessions (in fact fewer than N), and the
    most recently created session is among them. -/
theorem C4_registry_bound (minDur : Rat) (N : Nat) (hN : 2 ≤ N)
    (steps : List (String × (String → Rat))) (hne : steps ≠ [])
    (hdist : (steps.map Prod.fst).Nodup) (hk : N < steps.length) :
    ∃ st', runPlays minDur (List.replicate N none) steps = some st' ∧
      st'.length = N ∧ countSome st' ≤ N ∧ countSome st' < N ∧
      ∀ lastp ∈ steps.getLast?, lastp.1 ∈ storedUuids st' := by
  obtain ⟨st', hrun, hlen, hfree, _, hlast⟩ :=
    runPlays_spec minDur steps (List.replicate N none)
      (by simpa using hN)
      (by rw [countSome_replicate_none]; simpa using (by omega : 0 < N))
      (by intro p _ hmem; rw [storedUuids_replicate_none] at hmem; cases hmem)
      hdist
  rw [List.length_replicate] at hlen
  rw [hlen] at hfree
  exact ⟨st', hrun, hlen, by omega, hfree, hlast⟩

/-- Witness for C4_registry_bound: N = 2 slots, three distinct uuids. -/
theorem C4_registry_bound_witness :
    (2 ≤ 2 ∧
     ([("u1", fun _ => (100 : Rat)), ("u2", fun _ => 0), ("u3", fun _ => 50)] :
       List (String × (String → Rat))) ≠ [] ∧
     (([("u1", fun _ => (100 : Rat)), ("u2", fun _ => 0), ("u3", fun _ => 50)] :
       List (String × (String → Rat))).map Prod.fst).Nodup ∧
     2 < ([("u1", fun _ => (100 : Rat)), ("u2", fun _ => 0), ("u3", fun _ => 50)] :
       List (String × (String → Rat))).length) ∧
    ∃ st', runPlays 10 (List.replicate 2 none)
        [("u1", fun _ => (100 : Rat)), ("u2", fun _ => 0), ("u3", fun _ => 50)] =
        some st' ∧
      st'.length = 2 ∧ countSome st' ≤ 2 ∧ countSome st' < 2 ∧
      ∀ lastp ∈ ([("u1", fun _ => (100 : Rat)), ("u2", fun _ => 0), ("u3", fun _ => 50)] :
          List (String × (String → Rat))).getLast?, lastp.1 ∈ storedUuids st' :=
  ⟨⟨by omega, List.cons_ne_nil _ _, by simp, by simp⟩,
   C4_registry_bound 10 2 (by omega)
     [("u1", fun _ => (100 : Rat)), ("u2", fun _ => 0), ("u3", fun _ => 50)]
     (List.cons_ne_nil _ _) (by simp) (by simp)⟩

/-! ### Section 8: HLS URI rewriting
    (src/lib/media_data_store/MediaDataStore.cpp, string_replace /
    adjust_mlhls_data / adjust_nfhls_data / extract_uri_path).

    string_replace applies std::regex_replace, which scans left to right
    and replaces each non-overlapping match, continuing after the replaced
    text; for the literal patterns used here this is replace-all of a
    literal substring.  The pattern constants MLHLS_SCHEME = "mlhls://",
    NFHLS_SCHEME = "nfhls://", HTTP_SCHEME = "http://" and the host
    alternation HOST_LIST = localhost | 127.0.0.1 live in MediaDataStore.h,
    which is not under src/; they are modelled from the spec, with the
    alternation as two sequential literal replacements. -/

/-- Replace-all of the literal pattern p by r, scanning left to right and
    continuing after each replacement; fuel-structured (one fuel per step,
    each step consumes at least one input character when p is nonempty), so
    that it reduces in the kernel. -/
def replaceAllAux (p r : List Char) : Nat → List Char → List Char
  | 0, _ => []
  | fuel + 1, s =>
    match s with
    | [] => []
    | c :: cs =>
      if p.isPrefixOf s then r ++ replaceAllAux p r fuel (s.drop p.length)
      else c :: replaceAllAux p r fuel cs

/-- Replace every occurrence of the literal pattern p by r in s. -/
def replaceAll (p r s : List Char) : List Char := replaceAllAux p r s.length s

/-- Whether the pattern occurs in s, via strstr. -/
def hasSub (s pat : List Char) : Bool := (strstrL s pat).isSome

theorem strstrL_cons (c : Char) (cs q : List Char) :
    strstrL (c :: cs) q =
      if q.isPrefixOf (c :: cs) then some (c :: cs) else strstrL cs q := rfl

theorem strstrL_nil_of_ne (qh : Char) (qt : List Char) :
    strstrL [] (qh :: qt) = none := rfl

theorem strstrL_none_tail (c : Char) (cs q : List Char)
    (h : strstrL (c :: cs) q = none) : strstrL cs q = none := by
  rw [strstrL_cons] at h
  by_cases hp : q.isPrefixOf (c :: cs)
  · rw [if_pos hp] at h; cases h
  · rwa [if_neg hp] at h

theorem strstrL_none_not_isPrefixOf (c : Char) (cs q : List Char)
    (h : strstrL (c :: cs) q = none) : q.isPrefixOf (c :: cs) = false := by
  rw [strstrL_cons] at h
  by_cases hp : q.isPrefixOf (c :: cs)
  · rw [if_pos hp] at h; cases h
  · exact Bool.eq_false_iff.mpr hp

theorem strstrL_none_drop (q : List Char) :
    ∀ s, strstrL s q = none → ∀ k, strstrL (s.drop k) q = none := by
  intro s
  induction s with
  | nil => intro h k; simpa using h
  | cons c cs ih =>
    intro h k
    cases k with
    | zero => simpa using h
    | succ k' => exact ih (strstrL_none_tail c cs q h) k'

theorem strstrL_append_none (qh : Char) (qt : List Char) (r x : List Char)
    (hC0 : ∀ c ∈ r, c ≠ qh) (hx : strstrL x (qh :: qt) = none) :
    strstrL (r ++ x) (qh :: qt) = none := by
  induction r with
  | nil => simpa using hx
  | cons a r' ih =>
    have ha : a ≠ qh := hC0 a (List.mem_cons_self _ _)
    have hnp : (qh :: qt).isPrefixOf (a :: (r' ++ x)) = false := by
      simp only [List.isPrefixOf_cons₂]
      have : (qh == a) = false := by
        simp only [beq_eq_false_iff_ne]
        exact fun h => ha h.symm
      simp [this]
    rw [List.cons_append, strstrL_cons, hnp]
    simp only [Bool.false_eq_true, if_false]
    exact ih (fun c hc => hC0 c (List.mem_cons_of_mem _ hc))

theorem isPrefixOf_append_split (y r x : List Char)
    (h : y.isPrefixOf (r ++ x) = true) :
    y.isPrefixOf r = true ∨ (r.isPrefixOf y = true ∧ (y.drop r.length).isPrefixOf x = true) := by
  induction r generalizing y with
  | nil => exact Or.inr ⟨by cases y <;> rfl, by simpa using h⟩
  | cons a r' ih =>
    cases y with
    | nil => exact Or.inl rfl
    | cons b y2 =>
      rw [List.cons_append, List.isPrefixOf_cons₂] at h
      have hba : (b == a) = true := by
        cases hba : (b == a) with
        | true => rfl
        | false => rw [hba] at h; simpa using h
      have hab : (a == b) = true := by
        rw [beq_iff_eq] at hba ⊢
        exact hba.symm
      rw [hba] at h
      simp only [Bool.true_and] at h
      rcases ih y2 h with h2 | ⟨h2, h3⟩
      · exact Or.inl (by simp only [List.isPrefixOf_cons₂, hba, h2, Bool.true_and])
      · refine Or.inr ⟨by simp only [List.isPrefixOf_cons₂, hab, h2, Bool.true_and], ?_⟩
        simpa using h3

theorem drop_cons_of_lt (q : List Char) :
    ∀ i, i < q.length → ∃ c, q.drop i = c :: q.drop (i + 1) := by
  induction q with
  | nil => intro i hi; simp at hi
  | cons a t ih =>
    intro i hi
    cases i with
    | zero => exact ⟨a, by simp⟩
    | succ i' =>
      obtain ⟨c, hc⟩ := ih i' (by simpa using hi)
      exact ⟨c, by simpa using hc⟩

theorem replaceAux_prefix_pullback (p r : List Char) (qh : Char) (qt : List Char)
    (hp : p ≠ [])
    (hC1 : ∀ i, 0 < i → i < (qh :: qt).length →
      ((qh :: qt).drop i).isPrefixOf r = false ∧
      r.isPrefixOf ((qh :: qt).drop i) = false) :
    ∀ fuel s i, s.length ≤ fuel → 0 < i → i < (qh :: qt).length →
      ((qh :: qt).drop i).isPrefixOf (replaceAllAux p r fuel s) = true →
      ((qh :: qt).drop i).isPrefixOf s = true := by
  intro fuel
  induction fuel with
  | zero =>
    intro s i hs hi0 hilen hpre
    obtain ⟨c, hc⟩ := drop_cons_of_lt (qh :: qt) i hilen
    rw [replaceAllAux] at hpre
    rw [hc] at hpre
    cases hpre
  | succ fuel ih =>
    intro s i hs hi0 hilen hpre
    obtain ⟨c0, hc0⟩ := drop_cons_of_lt (qh :: qt) i hilen
    match s with
    | [] =>
      rw [replaceAllAux] at hpre
      rw [hc0] at hpre
      cases hpre
    | c :: cs =>
      rw [replaceAllAux] at hpre
      by_cases hps : p.isPrefixOf (c :: cs)
      · rw [if_pos hps] at hpre
        rcases isPrefixOf_append_split _ r _ hpre with h2 | ⟨h2, _⟩
        · exact absurd h2 (by simp [(hC1 i hi0 hilen).1])
        · exact absurd h2 (by simp [(hC1 i hi0 hilen).2])
      · rw [if_neg hps] at hpre
        rw [hc0, List.isPrefixOf_cons₂] at hpre
        have hcc : (c0 == c) = true := by
          cases hcc : (c0 == c) with
          | true => rfl
          | false => rw [hcc] at hpre; simpa using hpre
        rw [hcc] at hpre
        simp only [Bool.true_and] at hpre
        by_cases hi1 : i + 1 < (qh :: qt).length
        · have := ih cs (i + 1) (by simpa using hs) (by omega) hi1 hpre
          rw [hc0, List.isPrefixOf_cons₂, hcc]
          simpa using this
        · have hnil : (qh :: qt).drop (i + 1) = [] := by
            apply List.drop_eq_nil_of_le
            omega
          rw [hc0, hnil, List.isPrefixOf_cons₂, hcc]
          cases cs <;> rfl

theorem replaceAux_no_occurrence (p r : List Char) (qh : Char) (qt : List Char)
    (hp : p ≠ [])
    (hC0 : ∀ c ∈ r, c ≠ qh)
    (hC1 : ∀ i, 0 < i → i < (qh :: qt).length →
      ((qh :: qt).drop i).isPrefixOf r = false ∧
      r.isPrefixOf ((qh :: qt).drop i) = false) :
    ∀ fuel s, s.length ≤ fuel →
      (strstrL s (qh :: qt) = none ∨ p = qh :: qt) →
      strstrL (replaceAllAux p r fuel s) (qh :: qt) = none := by
  intro fuel
  induction fuel with
  | zero =>
    intro s hs _
    rw [replaceAllAux]
    rfl
  | succ fuel ih =>
    intro s hs hfree
    match s with
    | [] =>
      rw [replaceAllAux]
      rfl
    | c :: cs =>
      rw [replaceAllAux]
      by_cases hps : p.isPrefixOf (c :: cs)
      · rw [if_pos hps]
        refine strstrL_append_none qh qt r _ hC0 ?_
        refine ih ((c :: cs).drop p.length) ?_ ?_
        · have hplen : 1 ≤ p.length := by
            cases p with
            | nil => exact absurd rfl hp
            | cons a t => simp
          simp only [List.length_drop, List.length_cons]
          simp only [List.length_cons] at hs
          omega
        · rcases hfree with hnone | hpq
          · exact Or.inl (strstrL_none_drop (qh :: qt) (c :: cs) hnone p.length)
          · exact Or.inr hpq
      · rw [if_neg hps]
        have hqp : (qh :: qt).isPrefixOf (c :: cs) = false := by
          rcases hfree with hnone | hpq
          · exact strstrL_none_not_isPrefixOf c cs _ hnone
          · rw [← hpq]
            exact Bool.eq_false_iff.mpr hps
        have hnotpre : (qh :: qt).isPrefixOf
            (c :: replaceAllAux p r fuel cs) = false := by
          cases hqhc : (qh == c) with
          | false => simp [List.isPrefixOf_cons₂, hqhc]
          | true =>
            simp only [List.isPrefixOf_cons₂, hqhc, Bool.true_and]
            cases hqt : qt.isPrefixOf (replaceAllAux p r fuel cs) with
            | false => rfl
            | true =>
              exfalso
              cases hqtnil : qt with
              | nil =>
                have htrue : (qh :: qt).isPrefixOf (c :: cs) = true := by
                  rw [hqtnil, List.isPrefixOf_cons₂, hqhc]
                  cases cs <;> rfl
                rw [htrue] at hqp
                cases hqp
              | cons q1 qs =>
                have hpull := replaceAux_prefix_pullback p r qh qt hp hC1
                  fuel cs 1 (by simpa using hs) (by omega)
                  (by rw [hqtnil]; simp only [List.length_cons]; omega)
                  (show ((qh :: qt).drop 1).isPrefixOf (replaceAllAux p r fuel cs) =
                    true from hqt)
                simp only [List.drop_one, List.tail_cons] at hpull
                rw [List.isPrefixOf_cons₂, hqhc] at hqp
                simp only [Bool.true_and] at hqp
                rw [hpull] at hqp
                cases hqp
        rw [strstrL_cons, hnotpre]
        simp only [Bool.false_eq_true, if_false]
        refine ih cs (by simpa using hs) ?_
        rcases hfree with hnone | hpq
        · exact Or.inl (strstrL_none_tail c cs _ hnone)
        · exact Or.inr hpq

theorem replaceAll_no_self (p r s : List Char) (qh : Char) (qt : List Char)
    (hpq : p = qh :: qt)
    (hC0 : ∀ c ∈ r, c ≠ qh)
    (hC1 : ∀ i, 0 < i → i < (qh :: qt).length →
      ((qh :: qt).drop i).isPrefixOf r = false ∧
      r.isPrefixOf ((qh :: qt).drop i) = false) :
    strstrL (replaceAll p r s) (qh :: qt) = none :=
  replaceAux_no_occurrence p r qh qt (by rw [hpq]; exact List.cons_ne_nil _ _)
    hC0 hC1 s.length s Nat.le.refl (Or.inr hpq)

theorem replaceAll_preserves_free (p r s : List Char) (qh : Char) (qt : List Char)
    (hp : p ≠ [])
    (hC0 : ∀ c ∈ r, c ≠ qh)
    (hC1 : ∀ i, 0 < i → i < (qh :: qt).length →
      ((qh :: qt).drop i).isPrefixOf r = false ∧
      r.isPrefixOf ((qh :: qt).drop i) = false)
    (hfree : strstrL s (qh :: qt) = none) :
    strstrL (replaceAll p r s) (qh :: qt) = none :=
  replaceAux_no_occurrence p r qh qt hp hC0 hC1 s.length s Nat.le.refl (Or.inl hfree)

theorem replaceAllAux_fuel_irrel (p r : List Char) (hp : p ≠ []) :
    ∀ fuel fuel' s, s.length ≤ fuel → s.length ≤ fuel' →
      replaceAllAux p r fuel s = replaceAllAux p r fuel' s := by
  intro fuel
  induction fuel with
  | zero =>
    intro fuel' s hs _
    have : s = [] := List.length_eq_zero.mp (by omega)
    subst this
    cases fuel' <;> rfl
  | succ fuel ih =>
    intro fuel' s hs hs'
    match s with
    | [] => cases fuel' <;> rfl
    | c :: cs =>
      have hplen : 1 ≤ p.length := by
        cases p with
        | nil => exact absurd rfl hp
        | cons a t => simp
      cases fuel' with
      | zero => simp at hs'
      | succ fuel' =>
        rw [replaceAllAux, replaceAllAux]
        by_cases hps : p.isPrefixOf (c :: cs)
        · rw [if_pos hps, if_pos hps]
          congr 1
          apply ih
          · simp only [List.length_drop, List.length_cons]
            simp only [List.length_cons] at hs
            omega
          · simp only [List.length_drop, List.length_cons]
            simp only [List.length_cons] at hs'
            omega
        · rw [if_neg hps, if_neg hps]
          congr 1
          exact ih fuel' cs (by simpa using hs) (by simpa using hs')

theorem isPrefixOf_append_self (p rest : List Char) :
    p.isPrefixOf (p ++ rest) = true := by
  induction p with
  | nil => cases rest <;> rfl
  | cons a t ih =>
    rw [List.cons_append, List.isPrefixOf_cons₂]
    simp [ih]

theorem replaceAll_append_self (p r rest : List Char) (hp : p ≠ []) :
    replaceAll p r (p ++ rest) = r ++ replaceAll p r rest := by
  obtain ⟨a, t, rfl⟩ : ∃ a t, p = a :: t := by
    cases p with
    | nil => exact absurd rfl hp
    | cons a t => exact ⟨a, t, rfl⟩
  rw [replaceAll]
  have hlen : ((a :: t) ++ rest).length = rest.length + t.length + 1 := by
    simp [List.length_append]
    omega
  rw [hlen, List.cons_append, replaceAllAux]
  have hpre : (a :: t).isPrefixOf (a :: (t ++ rest)) = true := by
    rw [← List.cons_append]
    exact isPrefixOf_append_self (a :: t) rest
  rw [if_pos hpre]
  congr 1
  have hdrop : (a :: (t ++ rest)).drop (a :: t).length = rest := by
    simp [List.length_cons]
  rw [hdrop, replaceAll]
  apply replaceAllAux_fuel_irrel _ _ hp
  · omega
  · exact Nat.le.refl

theorem replaceAll_of_free (p r : List Char) :
    ∀ fuel s, s.length ≤ fuel → strstrL s p = none →
      replaceAllAux p r fuel s = s := by
  intro fuel
  induction fuel with
  | zero =>
    intro s hs _
    have : s = [] := List.length_eq_zero.mp (by omega)
    subst this
    rfl
  | succ fuel ih =>
    intro s hs hfree
    match s with
    | [] => rfl
    | c :: cs =>
      rw [replaceAllAux]
      have hnp : p.isPrefixOf (c :: cs) = false := strstrL_none_not_isPrefixOf c cs p hfree
      rw [hnp]
      simp only [Bool.false_eq_true, if_false]
      congr 1
      exact ih cs (by simpa using hs) (strstrL_none_tail c cs p hfree)

theorem replaceAll_id_of_free (p r s : List Char) (hfree : strstrL s p = none) :
    replaceAll p r s = s :=
  replaceAll_of_free p r s.length s Nat.le.refl hfree

theorem replaceAll_append_of_no_boundary (p r : List Char) (hp : p ≠ []) :
    ∀ x z, (∀ k, k < x.length → p.isPrefixOf (x.drop k ++ z) = false) →
      replaceAll p r (x ++ z) = x ++ replaceAll p r z := by
  intro x
  induction x with
  | nil => intro z _; simp
  | cons c x' ih =>
    intro z hx
    have hx0 : p.isPrefixOf (c :: (x' ++ z)) = false := by
      have := hx 0 (by simp)
      simpa using this
    rw [List.cons_append, replaceAll]
    rw [show (c :: (x' ++ z)).length = (x' ++ z).length + 1 from rfl]
    rw [replaceAllAux, hx0]
    simp only [Bool.false_eq_true, if_false]
    rw [show replaceAllAux p r (x' ++ z).length (x' ++ z) = replaceAll p r (x' ++ z)
      from rfl]
    rw [ih z (fun k hk => by simpa using hx (k + 1) (by simpa using hk))]
    rfl

/-- Modelled from the spec: MLHLS_SCHEME of MediaDataStore.h. -/
def MLHLS_SCHEME : List Char := "mlhls://".toList

/-- Modelled from the spec: NFHLS_SCHEME of MediaDataStore.h. -/
def NFHLS_SCHEME : List Char := "nfhls://".toList

/-- Modelled from the spec: HTTP_SCHEME of MediaDataStore.h. -/
def HTTP_SCHEME : List Char := "http://".toList

/-- Modelled from the spec: string_replace of the HOST_LIST alternation
    (localhost | 127.0.0.1) of MediaDataStore.h, as two sequential literal
    replacements. -/
def replace_host_list (rep s : List Char) : List Char :=
  replaceAll "127.0.0.1".toList rep (replaceAll "localhost".toList rep s)

/-- MediaDataStore::adjust_mlhls_data: replace the mlhls scheme by http,
    then the sender host by the store host "localhost:(port)". -/
def adjust_mlhls_data (host s : List Char) : List Char :=
  replace_host_list host (replaceAll MLHLS_SCHEME HTTP_SCHEME s)

/-- MediaDataStore::adjust_nfhls_data: replace the nfhls scheme by
    "http://" ++ host ++ "/". -/
def adjust_nfhls_data (host s : List Char) : List Char :=
  replaceAll NFHLS_SCHEME (HTTP_SCHEME ++ host ++ ['/']) s

/-- MediaDataStore::app_id. -/
inductive app_id
  | e_app_youtube
  | e_app_netflix
  | e_app_unknown
deriving DecidableEq, Repr

/-- MediaDataStore::extract_uri_path: strip the scheme and the host; the
    youtube case falls through into the netflix case (the switch has no
    break), which also prepends '/' when missing; s.at(0) on an empty
    string throws std::out_of_range, modelled as none. -/
def ensure_leading_slash : List Char → Option (List Char)
  | [] => none
  | c :: cs => if c ≠ '/' then some ('/' :: c :: cs) else some (c :: cs)

def extract_uri_path (app : app_id) (uri : List Char) : Option (List Char) :=
  match app with
  | app_id.e_app_youtube =>
    ensure_leading_slash (replace_host_list [] (replaceAll NFHLS_SCHEME []
      (replace_host_list [] (replaceAll MLHLS_SCHEME [] uri))))
  | app_id.e_app_netflix =>
    ensure_leading_slash (replace_host_list [] (replaceAll NFHLS_SCHEME [] uri))
  | app_id.e_app_unknown => some uri

theorem ensure_leading_slash_head (l out : List Char)
    (h : ensure_leading_slash l = some out) : out.head? = some '/' := by
  cases l with
  | nil => cases h
  | cons c cs =>
    rw [ensure_leading_slash] at h
    by_cases hc : c ≠ '/'
    · rw [if_pos hc] at h
      cases h
      rfl
    · rw [if_neg hc] at h
      cases h
      simp only [ne_eq, not_not] at hc
      simp [hc]

/-- Claim C9: HLS URI rewriting replaces sender schemes with local HTTP.
    For a store host (localhost:(port)) containing no 'm' or 'n' and not
    prefix-entangled with the scheme patterns (all checkable facts, true of
    every localhost:(port)): (1) for every input playlist text the
    mlhls-rewritten output contains no occurrence of "mlhls://";
    (2) every uri mlhls://localhost/p (the sender host localhost, with the
    natural non-recurrence side conditions on p) is rewritten to
    http://(host)/p, i.e. http://localhost:(port)/p — sender hosts outside
    the localhost | 127.0.0.1 list keep only the scheme swap, see the
    counterexample; (3) every uri nfhls://(rest) with rest free of the
    scheme is rewritten to http://(host)/(rest) — the nfhls sender host is
    not preserved, it becomes the first segment of the local path — so the
    local part starts with '/', and the output contains no occurrence of
    "nfhls://"; (4) extract_uri_path returns a path starting with '/' for
    the youtube and netflix app ids whenever it returns at all. -/
theorem C9_uri_rewriting (host : List Char)
    (hm0 : ∀ c ∈ host, c ≠ 'm')
    (hm1 : ∀ i, i < MLHLS_SCHEME.length → 0 < i →
      (MLHLS_SCHEME.drop i).isPrefixOf host = false ∧
      host.isPrefixOf (MLHLS_SCHEME.drop i) = false)
    (hn0 : ∀ c ∈ host, c ≠ 'n')
    (hn1 : ∀ i, i < NFHLS_SCHEME.length → 0 < i →
      (NFHLS_SCHEME.drop i).isPrefixOf (HTTP_SCHEME ++ host ++ ['/']) = false ∧
      (HTTP_SCHEME ++ host ++ ['/']).isPrefixOf (NFHLS_SCHEME.drop i) = false) :
    (∀ s, hasSub (adjust_mlhls_data host s) MLHLS_SCHEME = false) ∧
    (∀ rest, strstrL ("localhost/".toList ++ rest) MLHLS_SCHEME = none →
      strstrL ('/' :: rest) "localhost".toList = none →
      strstrL (HTTP_SCHEME ++ host ++ '/' :: rest) "127.0.0.1".toList = none →
      adjust_mlhls_data host (MLHLS_SCHEME ++ "localhost/".toList ++ rest) =
        HTTP_SCHEME ++ host ++ '/' :: rest) ∧
    (∀ rest, strstrL rest NFHLS_SCHEME = none →
      adjust_nfhls_data host (NFHLS_SCHEME ++ rest) =
        HTTP_SCHEME ++ host ++ '/' :: rest) ∧
    (∀ s, hasSub (adjust_nfhls_data host s) NFHLS_SCHEME = false) ∧
    (∀ app uri out, app ≠ app_id.e_app_unknown →
      extract_uri_path app uri = some out → out.head? = some '/') := by
  have hml : MLHLS_SCHEME = 'm' :: "lhls://".toList := rfl
  have hnf : NFHLS_SCHEME = 'n' :: "fhls://".toList := rfl
  have hmC1 : ∀ i, 0 < i → i < ('m' :: "lhls://".toList).length →
      (('m' :: "lhls://".toList).drop i).isPrefixOf host = false ∧
      host.isPrefixOf (('m' :: "lhls://".toList).drop i) = false :=
    fun i h0 hlen => hm1 i hlen h0
  refine ⟨?_, ?_, ?_, ?_, ?_⟩
  · intro s
    have h1 : strstrL (replaceAll MLHLS_SCHEME HTTP_SCHEME s) MLHLS_SCHEME = none :=
      replaceAll_no_self MLHLS_SCHEME HTTP_SCHEME s 'm' "lhls://".toList hml
        (by decide)
        (by
          have hdec : ∀ i, i < ('m' :: "lhls://".toList).length → 0 < i →
              (('m' :: "lhls://".toList).drop i).isPrefixOf HTTP_SCHEME = false ∧
              HTTP_SCHEME.isPrefixOf (('m' :: "lhls://".toList).drop i) = false := by
            decide
          exact fun i h0 hlen => hdec i hlen h0)
    have h2 : strstrL (replaceAll "localhost".toList host
        (replaceAll MLHLS_SCHEME HTTP_SCHEME s)) MLHLS_SCHEME = none :=
      replaceAll_preserves_free "localhost".toList host _ 'm' "lhls://".toList
        (by decide) (fun c hc => hm0 c hc) hmC1 h1
    have h3 : strstrL (replace_host_list host
        (replaceAll MLHLS_SCHEME HTTP_SCHEME s)) MLHLS_SCHEME = none :=
      replaceAll_preserves_free "127.0.0.1".toList host _ 'm' "lhls://".toList
        (by decide) (fun c hc => hm0 c hc) hmC1 h2
    rw [hasSub, adjust_mlhls_data, h3]
    rfl
  · intro rest hfree1 hfree2 hfree3
    have hbound : ∀ k, k < HTTP_SCHEME.length →
        "localhost".toList.isPrefixOf
          (HTTP_SCHEME.drop k ++ ("localhost".toList ++ ('/' :: rest))) = false := by
      intro k hk
      rw [show HTTP_SCHEME.length = 7 from rfl] at hk
      interval_cases k <;> rfl
    have e1 : replaceAll MLHLS_SCHEME HTTP_SCHEME
        ((MLHLS_SCHEME ++ "localhost/".toList) ++ rest) =
        HTTP_SCHEME ++ ("localhost/".toList ++ rest) := by
      rw [List.append_assoc,
        replaceAll_append_self MLHLS_SCHEME HTTP_SCHEME _ (by decide),
        replaceAll_id_of_free MLHLS_SCHEME HTTP_SCHEME _ hfree1]
    have hform : HTTP_SCHEME ++ ("localhost/".toList ++ rest) =
        HTTP_SCHEME ++ ("localhost".toList ++ ('/' :: rest)) := rfl
    have e2 : replaceAll "localhost".toList host
        (HTTP_SCHEME ++ ("localhost/".toList ++ rest)) =
        HTTP_SCHEME ++ (host ++ ('/' :: rest)) := by
      rw [hform,
        replaceAll_append_of_no_boundary "localhost".toList host (by decide)
          HTTP_SCHEME _ hbound,
        replaceAll_append_self "localhost".toList host _ (by decide),
        replaceAll_id_of_free "localhost".toList host _ hfree2]
    have hfree3' : strstrL (HTTP_SCHEME ++ (host ++ ('/' :: rest)))
        "127.0.0.1".toList = none := by
      rw [← List.append_assoc]
      exact hfree3
    have e3 : replaceAll "127.0.0.1".toList host
        (HTTP_SCHEME ++ (host ++ ('/' :: rest))) =
        HTTP_SCHEME ++ (host ++ ('/' :: rest)) :=
      replaceAll_id_of_free "127.0.0.1".toList host _ hfree3'
    rw [adjust_mlhls_data, replace_host_list, e1, e2, e3, ← List.append_assoc]
  · intro rest hrest
    rw [adjust_nfhls_data, replaceAll_append_self NFHLS_SCHEME _ rest (by decide)]
    rw [replaceAll, replaceAll_of_free NFHLS_SCHEME _ rest.length rest Nat.le.refl hrest]
    simp
  · intro s
    have hhttpn : ∀ c ∈ HTTP_SCHEME, c ≠ 'n' := by decide
    have hslashn : ∀ c ∈ ['/'], c ≠ 'n' := by decide
    have h1 : strstrL (adjust_nfhls_data host s) NFHLS_SCHEME = none :=
      replaceAll_no_self NFHLS_SCHEME (HTTP_SCHEME ++ host ++ ['/']) s
        'n' "fhls://".toList hnf
        (by
          intro c hc
          rcases List.mem_append.mp hc with hc2 | hc2
          · rcases List.mem_append.mp hc2 with hc3 | hc3
            · exact hhttpn c hc3
            · exact hn0 c hc3
          · exact hslashn c hc2)
        (fun i h0 hlen => hn1 i hlen h0)
    rw [hasSub, h1]
    rfl
  · intro app uri out happ hout
    cases app with
    | e_app_unknown => exact absurd rfl happ
    | e_app_youtube =>
      rw [extract_uri_path] at hout
      exact ensure_leading_slash_head _ out hout
    | e_app_netflix =>
      rw [extract_uri_path] at hout
      exact ensure_leading_slash_head _ out hout

/-- Claim C9 (counterexample): with the store host localhost:7100,
    adjust_nfhls_data rewrites nfhls://netflixhost/video.m3u8 to
    http://localhost:7100/netflixhost/video.m3u8 — the sender host
    netflixhost is not preserved as the claimed
    nfhls://(host)/(path) to http://(host)/(path) rewriting asserts — and
    adjust_mlhls_data rewrites mlhls://example.com/p.m3u8 to
    http://example.com/p.m3u8, not to http://localhost:7100/p.m3u8 as the
    claimed universal rewriting of mlhls://host/p to
    http://localhost:(port)/p asserts. -/
theorem C9_counterexample :
    (adjust_nfhls_data "localhost:7100".toList "nfhls://netflixhost/video.m3u8".toList =
       "http://localhost:7100/netflixhost/video.m3u8".toList ∧
     adjust_nfhls_data "localhost:7100".toList "nfhls://netflixhost/video.m3u8".toList ≠
       "http://netflixhost/video.m3u8".toList) ∧
    (adjust_mlhls_data "localhost:7100".toList "mlhls://example.com/p.m3u8".toList =
       "http://example.com/p.m3u8".toList ∧
     adjust_mlhls_data "localhost:7100".toList "mlhls://example.com/p.m3u8".toList ≠
       "http://localhost:7100/p.m3u8".toList) := by
  exact ⟨⟨by decide, by decide⟩, by decide, by decide⟩

/-- Witness for C9_uri_rewriting at the concrete store host localhost:7100. -/
theorem C9_uri_rewriting_witness :
    ((∀ c ∈ "localhost:7100".toList, c ≠ 'm') ∧
     (∀ c ∈ "localhost:7100".toList, c ≠ 'n') ∧
     strstrL ("localhost/".toList ++ "variant0.m3u8".toList) MLHLS_SCHEME = none ∧
     strstrL ('/' :: "variant0.m3u8".toList) "localhost".toList = none ∧
     strstrL (HTTP_SCHEME ++ "localhost:7100".toList ++
       '/' :: "variant0.m3u8".toList) "127.0.0.1".toList = none) ∧
    (hasSub (adjust_mlhls_data "localhost:7100".toList
        "#EXTM3U\nmlhls://localhost/variant0.m3u8\n".toList) MLHLS_SCHEME = false ∧
     adjust_mlhls_data "localhost:7100".toList
        (MLHLS_SCHEME ++ "localhost/".toList ++ "variant0.m3u8".toList) =
       HTTP_SCHEME ++ "localhost:7100".toList ++ '/' :: "variant0.m3u8".toList ∧
     adjust_nfhls_data "localhost:7100".toList
        (NFHLS_SCHEME ++ "netflixhost/video/playlist.m3u8".toList) =
       HTTP_SCHEME ++ "localhost:7100".toList ++
         '/' :: "netflixhost/video/playlist.m3u8".toList) :=
  ⟨⟨by decide, by decide, by decide, by decide, by decide⟩,
   (C9_uri_rewriting "localhost:7100".toList (by decide) (by decide) (by decide)
      (by decide)).1 "#EXTM3U\nmlhls://localhost/variant0.m3u8\n".toList,
   (C9_uri_rewriting "localhost:7100".toList (by decide) (by decide) (by decide)
      (by decide)).2.1 "variant0.m3u8".toList (by decide) (by decide) (by decide),
   (C9_uri_rewriting "localhost:7100".toList (by decide) (by decide) (by decide)
      (by decide)).2.2.1 "netflixhost/video/playlist.m3u8".toList (by decide)⟩

/-! ### Section 9: the HLS loopback serving handler
    (src/lib/http_handlers.h, http_handler_hls).  get_master_playlist and
    get_media_playlist (full airplay_video implementation, not under src/)
    are the evident lookups into the session's stores;
    adjust_yt_condensed_playlist is modelled after
    MediaDataStore::adjust_secondary_media_data (in src/): extract BASE-URI
    and PREFIX from the YT-EXT-CONDENSED-URL header and expand every line
    starting with the prefix (the regex groups are modelled as
    shortest-match scans, which agree on single-header playlists).
    gmt_time_string is out of scope and enters as the date parameter. -/

/-- The YT-EXT-CONDENSED-URL expansion: when the playlist carries
    BASE-URI="base" and PREFIX="p", rewrite every line "\np..." to
    "\nbase/p...". -/
def adjust_yt_condensed_playlist (s : List Char) : List Char :=
  match strstrL s "#YT-EXT-CONDENSED-URL:BASE-URI=\"".toList with
  | none => s
  | some tail1 =>
    match takeUntilChar (tail1.drop ("#YT-EXT-CONDENSED-URL:BASE-URI=\"".toList.length))
        '\"' with
    | none => s
    | some base =>
      match strstrL tail1 "PREFIX=\"".toList with
      | none => s
      | some tail2 =>
        match takeUntilChar (tail2.drop ("PREFIX=\"".toList.length)) '\"' with
        | none => s
        | some pfx =>
          if base ≠ [] ∧ pfx ≠ [] then
            replaceAll ('\n' :: pfx) ('\n' :: (base ++ '/' :: pfx)) s
          else s

/-- The outcome of the HLS loopback handler: response modification and the
    served body. -/
structure HlsResult where
  resp : HttpResponseMod
  body : Option String

/-- The headers http_handler_hls always adds before deciding the status. -/
def hlsCommonHeaders (date : String) : List (String × String) :=
  [("Access-Control-Allow-Headers", "Content-type"),
   ("Access-Control-Allow-Origin", "*"),
   ("Date", date)]

/-- http_handler_hls of http_handlers.h: a GET carrying an Upgrade header
    is declined by returning with the response untouched; otherwise
    /master.m3u8 serves the stored master playlist verbatim and any other
    path serves the stored media playlist after YT-condensed expansion;
    a body of positive length gets Content-Type
    application/x-mpegURL; charset=utf-8, a zero-length body turns the
    response into 404 Not Found.  The handler only reads the session. -/
def http_handler_hls (av : AirplayVideo) (url : String) (upgrade : Option String)
    (date : String) : HlsResult :=
  if upgrade.isSome then ⟨noResponseMod, none⟩
  else
    let dataOpt : Option String :=
      if url = "/master.m3u8" then av.master_playlist
      else (av.media_playlists.find? (fun e => e.1 == url)).map
        (fun e => String.mk (adjust_yt_condensed_playlist e.2.1.toList))
    let datalen := match dataOpt with
      | some d => d.length
      | none => 0
    if 0 < datalen then
      ⟨⟨none, hlsCommonHeaders date ++
          [("Content-Type", "application/x-mpegURL; charset=utf-8")], false⟩, dataOpt⟩
    else
      ⟨⟨some (404, "Not Found"), hlsCommonHeaders date, false⟩, none⟩

/-- Claim C10 (counterexample): a GET for an absent path that carries an
    Upgrade header is declined early: the handler leaves the response
    untouched, so it does not produce a 404 Not Found. -/
theorem C10_counterexample :
    (http_handler_hls ⟨"sid", "uu", "p", "l", 0, none, [], [], 0, 1⟩
        "/missing.m3u8" (some "h2c") "date").resp.init = none ∧
    ¬ (http_handler_hls ⟨"sid", "uu", "p", "l", 0, none, [], [], 0, 1⟩
        "/missing.m3u8" (some "h2c") "date").resp.init = some (404, "Not Found") := by
  constructor
  · rfl
  · intro h
    cases h

/-- Claim C10 (amended): on the HLS loopback channel, for a GET request
    without an Upgrade header: when the lookup fails (master playlist
    absent, or media playlist not found) the handler answers 404 Not Found
    with an empty body; a successful master lookup with nonempty text
    serves the cached master bytes verbatim, and a successful media lookup
    whose YT-condensed expansion is nonempty serves the cached bytes after
    that expansion (the exact cached bytes when no condensed header is
    present), both with Content-Type application/x-mpegURL; charset=utf-8;
    a GET carrying an Upgrade header is declined with the response
    untouched.  Serving never mutates the store: the handler is a read-only
    function of the session. -/
theorem C10_hls_serving (av : AirplayVideo) (url : String) (date : String) :
    (∀ up, (http_handler_hls av url (some up) date) = ⟨noResponseMod, none⟩) ∧
    (url = "/master.m3u8" → av.master_playlist = none →
      (http_handler_hls av url none date).resp.init = some (404, "Not Found") ∧
      (http_handler_hls av url none date).body = none) ∧
    (∀ m, url = "/master.m3u8" → av.master_playlist = some m → 0 < m.length →
      (http_handler_hls av url none date).body = some m ∧
      (http_handler_hls av url none date).resp.init = none ∧
      ("Content-Type", "application/x-mpegURL; charset=utf-8") ∈
        (http_handler_hls av url none date).resp.headers) ∧
    (url ≠ "/master.m3u8" →
      av.media_playlists.find? (fun e => e.1 == url) = none →
      (http_handler_hls av url none date).resp.init = some (404, "Not Found") ∧
      (http_handler_hls av url none date).body = none) ∧
    (∀ e, url ≠ "/master.m3u8" →
      av.media_playlists.find? (fun e => e.1 == url) = some e →
      0 < (adjust_yt_condensed_playlist e.2.1.toList).length →
      (http_handler_hls av url none date).body =
        some (String.mk (adjust_yt_condensed_playlist e.2.1.toList)) ∧
      ("Content-Type", "application/x-mpegURL; charset=utf-8") ∈
        (http_handler_hls av url none date).resp.headers) := by
  refine ⟨fun up => rfl, fun hu hm => ?_, fun m hu hm hlen => ?_, fun hu hm => ?_,
    fun e hu hm hlen => ?_⟩
  · rw [http_handler_hls]
    simp [hu, hm]
  · simp [http_handler_hls, hu, hm, hlen, hlsCommonHeaders]
  · rw [http_handler_hls]
    simp [hu, hm]
  · have hlen3 : 0 < (adjust_yt_condensed_playlist e.2.1.data).length := hlen
    simp [http_handler_hls, hu, hm, hlen3, hlsCommonHeaders]

/-- Witness for C10_hls_serving at a concrete session. -/
theorem C10_hls_serving_witness :
    ((("/master.m3u8" : String) = "/master.m3u8" ∧
      (some "#EXTM3U\nseg.ts\n" : Option String) = some "#EXTM3U\nseg.ts\n" ∧
      0 < ("#EXTM3U\nseg.ts\n" : String).length) ∧
     (("/v.m3u8" : String) ≠ "/master.m3u8" ∧
      ([("/v.m3u8", "#EXTM3U\nchunk0.ts\n", 1, (10 : Rat))].find?
        (fun e => e.1 == "/v.m3u8") = some ("/v.m3u8", "#EXTM3U\nchunk0.ts\n", 1, 10)) ∧
      0 < (adjust_yt_condensed_playlist
        ("#EXTM3U\nchunk0.ts\n" : String).toList).length)) ∧
    ((http_handler_hls
        ⟨"sid", "uu", "p", "l", 0, some "#EXTM3U\nseg.ts\n",
         [("/v.m3u8", "#EXTM3U\nchunk0.ts\n", 1, 10)], [], 0, 1⟩
        "/master.m3u8" none "date").body = some "#EXTM3U\nseg.ts\n" ∧
     (http_handler_hls
        ⟨"sid", "uu", "p", "l", 0, some "#EXTM3U\nseg.ts\n",
         [("/v.m3u8", "#EXTM3U\nchunk0.ts\n", 1, 10)], [], 0, 1⟩
        "/v.m3u8" none "date").body =
       some (String.mk (adjust_yt_condensed_playlist
         ("#EXTM3U\nchunk0.ts\n" : String).toList)) ∧
     (http_handler_hls
        ⟨"sid", "uu", "p", "l", 0, none, [], [], 0, 1⟩
        "/other.m3u8" none "date").resp.init = some (404, "Not Found")) :=
  ⟨⟨⟨rfl, rfl, by decide⟩, ⟨by decide, by decide, by decide⟩⟩,
   ((C10_hls_serving
      ⟨"sid", "uu", "p", "l", 0, some "#EXTM3U\nseg.ts\n",
       [("/v.m3u8", "#EXTM3U\nchunk0.ts\n", 1, 10)], [], 0, 1⟩
      "/master.m3u8" "date").2.2.1 "#EXTM3U\nseg.ts\n" rfl rfl (by decide)).1,
   ((C10_hls_serving
      ⟨"sid", "uu", "p", "l", 0, some "#EXTM3U\nseg.ts\n",
       [("/v.m3u8", "#EXTM3U\nchunk0.ts\n", 1, 10)], [], 0, 1⟩
      "/v.m3u8" "date").2.2.2.2 ("/v.m3u8", "#EXTM3U\nchunk0.ts\n", 1, 10)
      (by decide) (by decide) (by decide)).1,
   ((C10_hls_serving ⟨"sid", "uu", "p", "l", 0, none, [], [], 0, 1⟩
      "/other.m3u8" "date").2.2.2.1 (by decide) (by decide)).1⟩

end UxPlay
